import Mathlib

/-!
Verification of the backgammon rules / AI engine in `bkg.py`.

This file gives a shallow embedding of the core game logic of the
repository: the board data model, the single-move generator, the
forced-die resolver, move application (both the externally facing
`make_move` and the internal `make_move_base_logic`), the turn-sequence
enumerator `generate_possible_next_states_with_sequences`, the heuristic
evaluator, the sampled minimax search and AI move selection.

Modelling conventions:
* Python unbounded signed integers become `ℤ`; die values become `ℕ`.
* Python floats (search scores) become an exact extended-rational score
  type `Score` with `nan`, `-inf`, `+inf` following Python comparison and
  arithmetic rules for those values.  Rational arithmetic stands in for
  binary floating point.
* The global random source feeding dice sampling is modelled as an
  explicit stream `rand : ℕ → ℕ × ℕ` together with a position counter
  threaded through the computation.
* In-place mutation becomes explicit state passing; Python exceptions in
  `make_move` become an `Option` (`none` = an exception was raised).
* Python's `list[i]` / `list[i] = x` on possibly negative indices is
  modelled by `py_get` / `py_set` (`none` = `IndexError`).
-/

inductive Player
  | w
  | b
  deriving DecidableEq, Repr

def Player.opponent : Player → Player
  | .w => .b
  | .b => .w

/-- `1` for white, `-1` for black (`p_sign` in the source). -/
def p_sign : Player → ℤ
  | .w => 1
  | .b => -1

/-- A move endpoint: the sentinel strings `'bar'` / `'off'` or a 1-based
point number. -/
inductive Loc
  | bar
  | off
  | pt (n : ℕ)
  deriving DecidableEq, Repr

abbrev Move := Loc × Loc

/-- The `winner` field: `None`, a player, or the `"ERROR"` sentinel. -/
inductive Winner
  | none
  | win (p : Player)
  | error
  deriving DecidableEq, Repr

/-- The fields of `BackgammonGame` that the core game logic reads or
writes.  (`human_player`, `ai_player`, `current_phase` and the two
last-turn display sequences do not influence the core functions and are
omitted.) -/
structure GameState where
  board : List ℤ
  white_bar : ℤ
  black_bar : ℤ
  white_off : ℤ
  black_off : ℤ
  winner : Winner
  current_player : Player
  dice : List ℕ
  available_moves : List Move
  deriving DecidableEq, Repr

/-- `BackgammonGame.__init__`: standard starting layout, white to move. -/
def initial_state : GameState :=
  { board := [2, 0, 0, 0, 0, -5, 0, -3, 0, 0, 0, 5,
              -5, 0, 0, 0, 3, 0, 5, 0, 0, 0, 0, -2]
    white_bar := 0
    black_bar := 0
    white_off := 0
    black_off := 0
    winner := .none
    current_player := .w
    dice := []
    available_moves := [] }

/-- `calculate_pip`. -/
def calculate_pip (st : GameState) (player : Player) : ℤ :=
  let ps := p_sign player
  let p_bar_count := if player = .w then st.white_bar else st.black_bar
  let pip := ((List.range' 1 24).map (fun pos =>
      let count := st.board.getD (pos - 1) 0
      if count * ps > 0 then
        (if player = .w then (25 - (pos : ℤ)) else (pos : ℤ)) * |count|
      else 0)).sum
  pip + p_bar_count * 25

/-- `is_game_over`; the method also assigns `winner`, so the updated state
is returned alongside the boolean. -/
def is_game_over (st : GameState) : Bool × GameState :=
  if st.white_off ≥ 15 then (true, { st with winner := .win .w })
  else if st.black_off ≥ 15 then (true, { st with winner := .win .b })
  else (false, st)

/-- `board_tuple`: the hashable key used for memoisation/deduplication. -/
abbrev BoardKey := List ℤ × ℤ × ℤ × ℤ × ℤ × Player

def board_tuple (st : GameState) : BoardKey :=
  (st.board, st.white_bar, st.black_bar, st.white_off, st.black_off,
   st.current_player)

/-- `get_total_checker_count`. -/
def get_total_checker_count (st : GameState) : ℤ × ℤ :=
  let w_board := (st.board.filter (fun c => c > 0)).sum
  let b_board := ((st.board.filter (fun c => c < 0)).map (fun c => |c|)).sum
  (w_board + st.white_bar + st.white_off,
   b_board + st.black_bar + st.black_off)

/-- `_check_all_pieces_home`. -/
def check_all_pieces_home (player : Player) (st : GameState) : Bool :=
  let ps := p_sign player
  let bar_count := if player = .w then st.white_bar else st.black_bar
  if bar_count > 0 then false
  else
    let outside := if player = .w then List.range' 1 18 else List.range' 7 18
    outside.all (fun pos => decide (st.board.getD (pos - 1) 0 * ps ≤ 0))

/-- `_can_bear_off`. -/
def can_bear_off (player : Player) (checker_pos die_value : ℕ)
    (st : GameState) : Bool :=
  let ps := p_sign player
  let home_start := if player = .w then 19 else 1
  let home_end := if player = .w then 24 else 6
  if ¬(home_start ≤ checker_pos ∧ checker_pos ≤ home_end) then false
  else
    let target : ℤ := if player = .w then 25 else 0
    let required_dist := (target - (checker_pos : ℤ)).natAbs
    if die_value = required_dist then true
    else
      let is_overshoot :=
        (player = .w ∧ (checker_pos : ℤ) + die_value > 24) ∨
        (player = .b ∧ (checker_pos : ℤ) - die_value < 1)
      if is_overshoot ∧ die_value > required_dist then
        let check_behind :=
          if player = .w then List.range' home_start (checker_pos - home_start)
          else List.range' (checker_pos + 1) (home_end - checker_pos)
        check_behind.all (fun p => decide (st.board.getD (p - 1) 0 * ps ≤ 0))
      else false

/-- `_get_die_for_move`: nominal die value for a move (ignores overshoot). -/
def get_die_for_move (src dst : Loc) (player : Player) : Option ℕ :=
  match src, dst with
  | .pt s, .pt d =>
    let diff : ℤ := if player = .w then (d : ℤ) - s else (s : ℤ) - d
    if 1 ≤ diff ∧ diff ≤ 6 then some diff.toNat else none
  | .bar, .pt e =>
    let die : ℤ := if player = .w then (e : ℤ) else 25 - (e : ℤ)
    if 1 ≤ die ∧ die ≤ 6 then some die.toNat else none
  | .pt s, .off =>
    if player = .w ∧ ¬(19 ≤ s ∧ s ≤ 24) then none
    else if player = .b ∧ ¬(1 ≤ s ∧ s ≤ 6) then none
    else
      let needed : ℤ := if player = .w then 25 - (s : ℤ) else (s : ℤ)
      if 1 ≤ needed ∧ needed ≤ 6 then some needed.toNat else none
  | _, _ => none

/-- The body of the per-point loop of `_get_single_moves_for_die`: each
point produces at most one candidate move. -/
def move_at_pos (player : Player) (die_value : ℕ) (st : GameState)
    (all_home : Bool) (pos : ℕ) : Option Move :=
  let ps := p_sign player
  let checker_count := st.board.getD (pos - 1) 0
  if checker_count * ps > 0 then
    let dest_point : ℤ :=
      if player = .w then (pos : ℤ) + die_value else (pos : ℤ) - die_value
    if 1 ≤ dest_point ∧ dest_point ≤ 24 then
      let dest_count := st.board.getD (dest_point - 1).toNat 0
      if dest_count * ps ≥ 0 ∨ |dest_count| = 1 then
        some (.pt pos, .pt dest_point.toNat)
      else none
    else if all_home then
      if can_bear_off player pos die_value st then some (.pt pos, .off)
      else none
    else none
  else none

/-- `_get_single_moves_for_die`. -/
def get_single_moves_for_die (player : Player) (die_value : ℕ)
    (st : GameState) : List Move :=
  let ps := p_sign player
  let p_bar := if player = .w then st.white_bar else st.black_bar
  if p_bar > 0 then
    let entry_point : ℤ :=
      if player = .w then die_value else 25 - (die_value : ℤ)
    if 1 ≤ entry_point ∧ entry_point ≤ 24 then
      let dest_count := st.board.getD (entry_point - 1).toNat 0
      if dest_count * ps ≥ 0 ∨ |dest_count| = 1 then
        [(.bar, .pt entry_point.toNat)]
      else []
    else []
  else
    let all_home := check_all_pieces_home player st
    (List.range' 1 24).filterMap (move_at_pos player die_value st all_home)

/-- The destination half of `make_move_base_logic`, after the source
checker has been lifted.  `src_idx` is the 0-based board index of an
integer source (used to restore the source point on failure);
`src_was_bar` records a bar source (whose decrement is restored only in
the final invalid-destination branch, mirroring the source). -/
def base_logic_apply_dst (st1 : GameState) (player_base : Player)
    (src_idx : Option ℕ) (src_was_bar : Bool) (dst_base : Loc) :
    Bool × GameState :=
  let ps := p_sign player_base
  let restore_src : GameState → GameState := fun s =>
    match src_idx with
    | some i => { s with board := s.board.set i (s.board.getD i 0 + ps) }
    | none => s
  let restore_bar : GameState → GameState := fun s =>
    if src_was_bar then
      if player_base = .w then { s with white_bar := s.white_bar + 1 }
      else { s with black_bar := s.black_bar + 1 }
    else s
  match dst_base with
  | .off =>
    if player_base = .w then (true, { st1 with white_off := st1.white_off + 1 })
    else (true, { st1 with black_off := st1.black_off + 1 })
  | .pt d =>
    if 1 ≤ d ∧ d ≤ 24 then
      let dest_count := st1.board.getD (d - 1) 0
      if dest_count * ps < 0 ∧ |dest_count| ≥ 2 then
        (false, restore_src st1)
      else if dest_count * ps < 0 ∧ |dest_count| = 1 then
        let st2 :=
          if player_base = .w then { st1 with black_bar := st1.black_bar + 1 }
          else { st1 with white_bar := st1.white_bar + 1 }
        (true, { st2 with board := st2.board.set (d - 1) ps })
      else (true, { st1 with board := st1.board.set (d - 1) (dest_count + ps) })
    else (false, restore_bar (restore_src st1))
  | .bar => (false, restore_bar (restore_src st1))

/-- `make_move_base_logic`: simplified move logic for internal AI
simulation (no dice bookkeeping). -/
def make_move_base_logic (st : GameState) (player_base : Player)
    (src_base dst_base : Loc) : Bool × GameState :=
  let ps := p_sign player_base
  match src_base with
  | .bar =>
    if player_base = .w then
      if st.white_bar > 0 then
        base_logic_apply_dst { st with white_bar := st.white_bar - 1 }
          player_base none true dst_base
      else (false, st)
    else
      if st.black_bar > 0 then
        base_logic_apply_dst { st with black_bar := st.black_bar - 1 }
          player_base none true dst_base
      else (false, st)
  | .pt s =>
    if 1 ≤ s ∧ s ≤ 24 then
      let v := st.board.getD (s - 1) 0
      if v * ps ≤ 0 then (false, st)
      else
        base_logic_apply_dst { st with board := st.board.set (s - 1) (v - ps) }
          player_base (some (s - 1)) false dst_base
    else (false, st)
  | .off => (false, st)

/-- Deduplication keeping first occurrences (models collecting values
into a Python `set`/`dict`; iteration order of a Python set is
unspecified and nothing downstream depends on it). -/
def dedup_keep_first {α : Type} [DecidableEq α] : List α → List α
  | [] => []
  | x :: xs => x :: (dedup_keep_first xs).filter (fun y => y ≠ x)

/-- Stable descending insertion (used to model Python's
`sorted(..., reverse=True)`). -/
def insert_desc (x : ℕ) : List ℕ → List ℕ
  | [] => [x]
  | y :: ys => if x ≥ y then x :: y :: ys else y :: insert_desc x ys

def sorted_desc (l : List ℕ) : List ℕ := l.foldr insert_desc []

/-- Stable ascending insertion (Python's `sorted`). -/
def insert_asc (x : ℕ) : List ℕ → List ℕ
  | [] => [x]
  | y :: ys => if x ≤ y then x :: y :: ys else y :: insert_asc x ys

def sorted_asc (l : List ℕ) : List ℕ := l.foldr insert_asc []

/-- `_get_strictly_playable_dice`: which dice must or can be played. -/
def get_strictly_playable_dice (st : GameState) (dice_list : List ℕ)
    (player : Player) : List ℕ :=
  if dice_list = [] then []
  else
    let unique_dice := sorted_desc (dedup_keep_first dice_list)
    let individually_playable :=
      unique_dice.filter (fun die => get_single_moves_for_die player die st ≠ [])
    if individually_playable = [] then []
    else
      match dice_list with
      | [a, b] =>
        if a ≠ b then
          let smaller := min a b
          let larger := max a b
          let can_play_larger := larger ∈ individually_playable
          let can_play_smaller := smaller ∈ individually_playable
          if can_play_larger ∧ ¬can_play_smaller then [larger]
          else if ¬can_play_larger ∧ can_play_smaller then [smaller]
          else if can_play_larger ∧ can_play_smaller then
            let try_order : ℕ → ℕ → Bool := fun first second =>
              (get_single_moves_for_die player first st).any (fun mv =>
                let res := make_move_base_logic st player mv.1 mv.2
                res.1 && decide (get_single_moves_for_die player second res.2 ≠ []))
            let can_play_both := try_order larger smaller || try_order smaller larger
            if ¬can_play_both ∧ can_play_larger then [larger]
            else individually_playable
          else []
        else individually_playable
      | _ => individually_playable

/-- `get_legal_actions`.  Python collects the moves into a `set`; we
deduplicate keeping first occurrences (the iteration order of a Python
`set` is unspecified and nothing downstream depends on it). -/
def get_legal_actions (st : GameState) : List Move :=
  if st.dice = [] then []
  else
    let playable := get_strictly_playable_dice st st.dice st.current_player
    dedup_keep_first (playable.flatMap (fun die =>
      get_single_moves_for_die st.current_player die st))

/-- Python `l[i]` with possibly negative index: `none` = `IndexError`. -/
def py_idx (len : ℕ) (i : ℤ) : Option ℕ :=
  if 0 ≤ i ∧ i < (len : ℤ) then some i.toNat
  else if -(len : ℤ) ≤ i ∧ i < 0 then some (i + len).toNat
  else none

def py_get (l : List ℤ) (i : ℤ) : Option ℤ :=
  (py_idx l.length i).map (fun n => l.getD n 0)

def py_set (l : List ℤ) (i : ℤ) (x : ℤ) : Option (List ℤ) :=
  (py_idx l.length i).map (fun n => l.set n x)

/-- The overshoot search of `make_move`: smallest available die that can
bear the checker off. -/
def overshoot_die_search (st : GameState) (src : ℕ) (player : Player) :
    Option ℕ :=
  let needed : ℤ := if player = .w then 25 - (src : ℤ) else (src : ℤ)
  let candidates := sorted_asc (st.dice.filter (fun d => (d : ℤ) ≥ needed))
  candidates.find? (fun d =>
    check_all_pieces_home player st && can_bear_off player src d st)

/-- The die-selection part of `make_move`. -/
def find_die_to_remove (st : GameState) (src dst : Loc) (player : Player) :
    Option ℕ :=
  match get_die_for_move src dst player with
  | some n =>
    if n ∈ st.dice then some n
    else
      match src, dst with
      | .pt s, .off => overshoot_die_search st s player
      | _, _ => none
  | none =>
    match src, dst with
    | .pt s, .off => overshoot_die_search st s player
    | _, _ => none

/-- The board/bar/off mutation block of `make_move` (the body of its
`try`).  `none` means a Python exception was raised (the explicit
`ValueError` on a blocked destination, an `IndexError`, or a `TypeError`
from a sentinel where an integer is expected). -/
def make_move_apply (st : GameState) (src dst : Loc) (player : Player) :
    Option GameState :=
  let ps := p_sign player
  let st1opt : Option GameState :=
    match src with
    | .bar =>
      some (if player = .w then { st with white_bar := st.white_bar - 1 }
            else { st with black_bar := st.black_bar - 1 })
    | .pt s =>
      (py_get st.board ((s : ℤ) - 1)).bind (fun v =>
        (py_set st.board ((s : ℤ) - 1) (v - ps)).map (fun bd =>
          { st with board := bd }))
    | .off => none
  st1opt.bind (fun st1 =>
    match dst with
    | .off =>
      some (if player = .w then { st1 with white_off := st1.white_off + 1 }
            else { st1 with black_off := st1.black_off + 1 })
    | .pt d =>
      (py_get st1.board ((d : ℤ) - 1)).bind (fun dest_count =>
        if dest_count * ps < 0 then
          if |dest_count| = 1 then
            (py_set st1.board ((d : ℤ) - 1) ps).map (fun bd =>
              if player = .w then
                { st1 with board := bd, black_bar := st1.black_bar + 1 }
              else
                { st1 with board := bd, white_bar := st1.white_bar + 1 })
          else none
        else
          (py_set st1.board ((d : ℤ) - 1) (dest_count + ps)).map (fun bd =>
            { st1 with board := bd }))
    | .bar => none)

/-- `make_move`: applies a single move for the current player and updates
the game state.  Returns the success flag together with the new state.
On an exception the snapshot of board/bars/offs/dice is restored; on a
failed checker-count check the mutated state is kept and only `winner`
is set to the error sentinel. -/
def make_move (st : GameState) (src dst : Loc) : Bool × GameState :=
  let player := st.current_player
  match find_die_to_remove st src dst player with
  | none => (false, st)
  | some die_to_remove =>
    match make_move_apply st src dst player with
    | none =>
      (false, { st with available_moves := get_legal_actions st,
                        winner := .error })
    | some stM =>
      let stD := { stM with dice := stM.dice.erase die_to_remove }
      let stA := { stD with available_moves := get_legal_actions stD }
      let stG := (is_game_over stA).2
      let counts := get_total_checker_count stG
      if counts.1 ≠ 15 ∨ counts.2 ≠ 15 then (false, { stG with winner := .error })
      else (true, stG)

/-- `roll_dice`, with the two random values supplied explicitly. -/
def roll_dice (st : GameState) (d1 d2 : ℕ) : GameState :=
  let dice := if d1 = d2 then [d1, d1, d1, d1] else [d1, d2]
  let st1 := { st with dice := dice }
  { st1 with available_moves := get_legal_actions st1 }

/-- `switch_player`. -/
def switch_player (st : GameState) : GameState :=
  { st with current_player := st.current_player.opponent,
            dice := [],
            available_moves := [] }

/-! ### Claim-side vocabulary

The following definitions spell out conditions in the words of the
specification; the claim theorems relate them to the embedded code. -/

/-- The entry point from the bar for a given die value: the die value for
the low-to-high player (white), `25 - die` for the other. -/
def bar_entry_point (player : Player) (die : ℕ) : ℕ :=
  if player = .w then die else 25 - die

/-- Number of opposing checkers sitting on point `p`. -/
def opposing_checkers_at (st : GameState) (player : Player) (p : ℕ) : ℤ :=
  let c := st.board.getD (p - 1) 0
  if c * p_sign player < 0 then |c| else 0


/-- C6: while the player has checkers on the bar, the single-move
generator produces only bar re-entry moves: at most the single move
`('bar', e)` with `e` the die-derived entry point, included exactly when
`e` holds at most one opposing checker (two or more block it); no
board-point or bear-off move is generated. -/
theorem c6_bar_reentry_only (st : GameState) (player : Player) (die : ℕ)
    (hbar : 0 < (if player = .w then st.white_bar else st.black_bar))
    (h1 : 1 ≤ die) (h6 : die ≤ 6) :
    get_single_moves_for_die player die st =
      if opposing_checkers_at st player (bar_entry_point player die) ≤ 1 then
        [(Loc.bar, Loc.pt (bar_entry_point player die))]
      else [] := by
  cases player with
  | w =>
    have hbar' : 0 < st.white_bar := by simpa using hbar
    have hidx : ((die : ℤ) - 1).toNat = die - 1 := by omega
    have hept : ((die : ℤ)).toNat = die := by omega
    simp only [get_single_moves_for_die, bar_entry_point, opposing_checkers_at,
      p_sign, mul_one]
    simp [hbar', hidx, hept, show (1:ℤ) ≤ (die:ℤ) by omega,
      show (die:ℤ) ≤ 24 by omega]
    rcases le_or_lt 0 (st.board[die-1]?.getD 0) with h | h
    · simp [h, not_lt.mpr h]
    · simp [h.not_le, abs_of_neg h, if_pos h]
      exact if_congr (by omega) rfl rfl
  | b =>
    have hbar' : 0 < st.black_bar := by simpa using hbar
    have hidx : ((25:ℤ) - (die : ℤ) - 1).toNat = 25 - die - 1 := by omega
    have hept : ((25:ℤ) - (die : ℤ)).toNat = 25 - die := by omega
    simp only [get_single_moves_for_die, bar_entry_point, opposing_checkers_at,
      p_sign]
    simp [hbar', hidx, hept, show (1:ℤ) ≤ 25 - (die:ℤ) by omega,
      show 25 - (die:ℤ) ≤ 24 by omega]
    rcases le_or_lt (st.board[25-die-1]?.getD 0) 0 with h | h
    · simp [h, not_lt.mpr h]
    · simp [h.not_le, abs_of_pos h, if_pos h]
      exact if_congr (by omega) rfl rfl

/-- A state with a white checker on the bar, for the C6 witness. -/
def c6_example_state : GameState := { initial_state with white_bar := 1 }

/-- Witness for C6 at a concrete input: with a checker on the bar and
die 3, only the re-entry move is generated. -/
theorem c6_bar_reentry_only_witness :
    get_single_moves_for_die Player.w 3 c6_example_state =
      [(Loc.bar, Loc.pt 3)] :=
  (c6_bar_reentry_only c6_example_state Player.w 3 (by decide) (by decide)
    (by decide)).trans (by decide)


/-- Point `p` lies in the player's home quadrant (claim-side
vocabulary). -/

def in_home_quadrant (player : Player) (p : ℕ) : Prop :=
  (player = .w ∧ 19 ≤ p ∧ p ≤ 24) ∨ (player = .b ∧ 1 ≤ p ∧ p ≤ 6)

instance (player : Player) (p : ℕ) : Decidable (in_home_quadrant player p) := by
  unfold in_home_quadrant; infer_instance

def all_home_empty_bar (st : GameState) (player : Player) : Prop :=
  (if player = .w then st.white_bar else st.black_bar) = 0 ∧
  ∀ p ∈ List.range' 1 24, ¬ in_home_quadrant player p →
    st.board.getD (p - 1) 0 * p_sign player ≤ 0

instance (st : GameState) (player : Player) :
    Decidable (all_home_empty_bar st player) := by
  unfold all_home_empty_bar; infer_instance

def no_checker_behind (st : GameState) (player : Player) (pos : ℕ) : Prop :=
  ∀ q ∈ List.range' 1 24, in_home_quadrant player q →
    ((player = .w ∧ q < pos) ∨ (player = .b ∧ pos < q)) →
    st.board.getD (q - 1) 0 * p_sign player ≤ 0

instance (st : GameState) (player : Player) (pos : ℕ) :
    Decidable (no_checker_behind st player pos) := by
  unfold no_checker_behind; infer_instance

def dist_to_off (player : Player) (pos : ℕ) : ℕ :=
  if player = .w then 25 - pos else pos

lemma move_at_pos_eq_off (player : Player) (die : ℕ) (st : GameState)
    (ah : Bool) (p' pos : ℕ) :
    move_at_pos player die st ah p' = some (Loc.pt pos, Loc.off) ↔
      (p' = pos ∧ 0 < st.board.getD (p' - 1) 0 * p_sign player ∧
        ¬(1 ≤ (if player = .w then (p' : ℤ) + die else (p' : ℤ) - die) ∧
          (if player = .w then (p' : ℤ) + die else (p' : ℤ) - die) ≤ 24) ∧
        ah = true ∧ can_bear_off player p' die st = true) := by
  have main : ∀ (dp : ℤ),
      (if 0 < st.board.getD (p' - 1) 0 * p_sign player then
        if 1 ≤ dp ∧ dp ≤ 24 then
          if st.board.getD (dp - 1).toNat 0 * p_sign player ≥ 0 ∨
              |st.board.getD (dp - 1).toNat 0| = 1 then
            some ((Loc.pt p', Loc.pt dp.toNat) : Move)
          else none
        else if ah then
          if can_bear_off player p' die st then some (Loc.pt p', Loc.off)
          else none
        else none
      else none) = some (Loc.pt pos, Loc.off) ↔
      (p' = pos ∧ 0 < st.board.getD (p' - 1) 0 * p_sign player ∧
        ¬(1 ≤ dp ∧ dp ≤ 24) ∧ ah = true ∧
        can_bear_off player p' die st = true) := by
    intro dp
    split_ifs with h1 h2 h3 h4 h5
    · simp only [Option.some.injEq, Prod.mk.injEq]
      constructor
      · rintro ⟨-, hbad⟩; exact Loc.noConfusion hbad
      · rintro ⟨rfl, -, hno, -⟩; exact absurd h2 hno
    · simp only [false_iff, reduceCtorEq]
      rintro ⟨rfl, -, hno, -⟩; exact absurd h2 hno
    · simp only [Option.some.injEq, Prod.mk.injEq, Loc.pt.injEq]
      constructor
      · rintro ⟨rfl, -⟩; exact ⟨rfl, h1, h2, h4, h5⟩
      · rintro ⟨rfl, -⟩; exact ⟨rfl, trivial⟩
    · simp only [false_iff, reduceCtorEq]
      rintro ⟨rfl, -, -, -, hcbo⟩; exact absurd hcbo h5
    · simp only [false_iff, reduceCtorEq]
      rintro ⟨rfl, -, -, hah, -⟩; exact absurd hah h4
    · simp only [false_iff, reduceCtorEq]
      rintro ⟨rfl, hchk, -⟩; exact absurd hchk h1
  have := main (if player = .w then (p' : ℤ) + die else (p' : ℤ) - die)
  rw [← this]
  rfl

lemma check_all_pieces_home_iff (st : GameState) (player : Player)
    (hwb : 0 ≤ st.white_bar) (hbb : 0 ≤ st.black_bar) :
    check_all_pieces_home player st = true ↔ all_home_empty_bar st player := by
  cases player with
  | w =>
    by_cases hb : st.white_bar > 0
    · simp only [check_all_pieces_home, all_home_empty_bar, p_sign]
      simp [hb]
      intro h0
      omega
    · simp only [check_all_pieces_home, all_home_empty_bar, in_home_quadrant,
        p_sign]
      simp [hb, List.all_eq_true, List.mem_range'_1]
      constructor
      · intro h
        refine ⟨by omega, ?_⟩
        intro p hp1 hp25 hnh
        exact h p hp1 (by omega)
      · rintro ⟨-, h⟩ p hp1 hp19
        exact h p hp1 (by omega) (by omega)
  | b =>
    by_cases hb : st.black_bar > 0
    · simp only [check_all_pieces_home, all_home_empty_bar, p_sign]
      simp [hb]
      intro h0
      omega
    · simp only [check_all_pieces_home, all_home_empty_bar, in_home_quadrant,
        p_sign]
      simp [hb, List.all_eq_true, List.mem_range'_1]
      constructor
      · intro h
        refine ⟨by omega, ?_⟩
        intro p hp1 hp25 hnh
        exact h p (by omega) (by omega)
      · rintro ⟨-, h⟩ p hp7 hp25
        exact h p (by omega) (by omega) (by omega)

lemma can_bear_off_iff (st : GameState) (player : Player) (pos die : ℕ) :
    can_bear_off player pos die st = true ↔
      (in_home_quadrant player pos ∧
        (die = dist_to_off player pos ∨
          (dist_to_off player pos < die ∧ no_checker_behind st player pos))) := by
  cases player with
  | w =>
    by_cases hhome : 19 ≤ pos ∧ pos ≤ 24
    · have hreq : ((25 : ℤ) - (pos : ℤ)).natAbs = 25 - pos := by omega
      by_cases hexact : die = 25 - pos
      · simp only [can_bear_off, dist_to_off, in_home_quadrant, p_sign]
        simp [hhome, hreq, hexact]
      · by_cases hgt : 25 - pos < die
        · simp only [can_bear_off, dist_to_off, in_home_quadrant, p_sign,
            no_checker_behind]
          simp [hhome, hreq, hexact, hgt, List.all_eq_true, List.mem_range'_1,
            show (pos : ℤ) + (die : ℤ) > 24 by omega]
          constructor
          · intro h
            intro q hq1 hq25 hq19 hq24 hqpos
            exact h q hq19 (by omega)
          · intro h q hq19 hqlt
            exact h q (by omega) (by omega) (by omega) (by omega) (by omega)
        · simp only [can_bear_off, dist_to_off, in_home_quadrant, p_sign]
          simp [hhome, hreq, hexact, hgt]
    · simp only [can_bear_off, dist_to_off, in_home_quadrant, p_sign]
      simp [hhome]
  | b =>
    by_cases hhome : 1 ≤ pos ∧ pos ≤ 6
    · have hreq : ((0 : ℤ) - (pos : ℤ)).natAbs = pos := by omega
      by_cases hexact : die = pos
      · simp only [can_bear_off, dist_to_off, in_home_quadrant, p_sign]
        simp [hhome, hreq, hexact]
      · by_cases hgt : pos < die
        · simp only [can_bear_off, dist_to_off, in_home_quadrant, p_sign,
            no_checker_behind]
          simp [hhome, hreq, hexact, hgt, List.all_eq_true, List.mem_range'_1,
            show (pos : ℤ) - (die : ℤ) < 1 by omega]
          constructor
          · intro h
            intro q hq1 hq25 hqh1 hqh6 hqpos
            exact h q hqpos (by omega)
          · intro h q hqgt hq7
            exact h q (by omega) (by omega) (by omega) (by omega) (by omega)
        · simp only [can_bear_off, dist_to_off, in_home_quadrant, p_sign]
          simp [hhome, hreq, hexact, hgt]
    · simp only [can_bear_off, dist_to_off, in_home_quadrant, p_sign]
      simp [hhome]

lemma mem_single_moves_off_iff (st : GameState) (player : Player)
    (die pos : ℕ) (hpos1 : 1 ≤ pos) (hpos24 : pos ≤ 24)
    (hpb : ¬ (if player = .w then st.white_bar else st.black_bar) > 0) :
    (Loc.pt pos, Loc.off) ∈ get_single_moves_for_die player die st ↔
      (0 < st.board.getD (pos - 1) 0 * p_sign player ∧
        ¬(1 ≤ (if player = .w then (pos : ℤ) + die else (pos : ℤ) - die) ∧
          (if player = .w then (pos : ℤ) + die else (pos : ℤ) - die) ≤ 24) ∧
        check_all_pieces_home player st = true ∧
        can_bear_off player pos die st = true) := by
  simp only [get_single_moves_for_die]
  rw [if_neg hpb, List.mem_filterMap]
  constructor
  · rintro ⟨p', hp'mem, heq⟩
    rw [move_at_pos_eq_off] at heq
    obtain ⟨rfl, h1, h2, h3, h4⟩ := heq
    exact ⟨h1, h2, h3, h4⟩
  · rintro ⟨h1, h2, h3, h4⟩
    exact ⟨pos, by rw [List.mem_range'_1]; omega,
      (move_at_pos_eq_off player die st _ pos pos).mpr ⟨rfl, h1, h2, h3, h4⟩⟩


/-- C5: a bear-off move `(pos, off)` for a point actually holding one of
the player's checkers is generated exactly when all of the player's
checkers are inside the home quadrant with an empty bar, and the die
either equals the checker's distance to off or exceeds it with no
checker of the player sitting strictly farther from off in the home
quadrant. -/

theorem c5_bear_off_generation (st : GameState) (player : Player)
    (die pos : ℕ)
    (hwb : 0 ≤ st.white_bar) (hbb : 0 ≤ st.black_bar)
    (hpos1 : 1 ≤ pos) (hpos24 : pos ≤ 24)
    (hchecker : 0 < st.board.getD (pos - 1) 0 * p_sign player) :
    ((Loc.pt pos, Loc.off) ∈ get_single_moves_for_die player die st ↔
      (all_home_empty_bar st player ∧
        (die = dist_to_off player pos ∨
          (dist_to_off player pos < die ∧ no_checker_behind st player pos)))) := by
  by_cases hpb : (if player = .w then st.white_bar else st.black_bar) > 0
  · refine iff_of_false ?_ ?_
    · simp only [get_single_moves_for_die]
      rw [if_pos hpb]
      split_ifs <;> simp
    · rintro ⟨⟨h0, -⟩, -⟩
      rw [h0] at hpb
      exact absurd hpb (by omega)
  · rw [mem_single_moves_off_iff st player die pos hpos1 hpos24 hpb,
      check_all_pieces_home_iff st player hwb hbb,
      can_bear_off_iff st player pos die]
    constructor
    · rintro ⟨-, -, hah, hin, hdisj⟩
      exact ⟨hah, hdisj⟩
    · rintro ⟨hah, hdisj⟩
      have hin : in_home_quadrant player pos := by
        by_contra hno
        have := hah.2 pos (by rw [List.mem_range'_1]; omega) hno
        omega
      refine ⟨hchecker, ?_, hah, hin, hdisj⟩
      cases player with
      | w =>
        have : 25 - pos ≤ die := by
          rcases hdisj with h | h
          · simp [dist_to_off] at h; omega
          · simp [dist_to_off] at h; omega
        show ¬(1 ≤ (pos : ℤ) + die ∧ (pos : ℤ) + die ≤ 24)
        omega
      | b =>
        have : pos ≤ die := by
          rcases hdisj with h | h
          · simp [dist_to_off] at h; omega
          · simp [dist_to_off] at h; omega
        show ¬(1 ≤ (pos : ℤ) - die ∧ (pos : ℤ) - die ≤ 24)
        omega

/-- A board with all fifteen white checkers on point 24, for the C5
witness (the spec's bear-off overshoot test vector). -/
def c5_example_state : GameState :=
  { initial_state with
    board := [-2, 0, 0, 0, 0, 0, 0, 0, 0, 0, 0, 0,
              0, 0, 0, 0, 0, 0, 0, 0, 0, 0, 0, 15] }

/-- Witness for C5 at a concrete input: all fifteen white checkers on
point 24, die 6 overshoots the distance 1 and bears off. -/
theorem c5_bear_off_generation_witness :
    (((Loc.pt 24, Loc.off) ∈ get_single_moves_for_die Player.w 6 c5_example_state ↔
      (all_home_empty_bar c5_example_state Player.w ∧
        (6 = dist_to_off Player.w 24 ∨
          (dist_to_off Player.w 24 < 6 ∧
            no_checker_behind c5_example_state Player.w 24)))) ∧
      (Loc.pt 24, Loc.off) ∈ get_single_moves_for_die Player.w 6 c5_example_state) :=
  ⟨c5_bear_off_generation c5_example_state Player.w 6 24 (by decide) (by decide)
      (by decide) (by decide) (by decide),
    by decide⟩

lemma mem_dedup_keep_first {α : Type} [DecidableEq α] (l : List α) (x : α) :
    x ∈ dedup_keep_first l ↔ x ∈ l := by
  induction l with
  | nil => simp [dedup_keep_first]
  | cons y ys ih =>
    rw [dedup_keep_first]
    by_cases hxy : x = y
    · simp [hxy]
    · simp only [List.mem_cons, hxy, false_or, List.mem_filter]
      rw [ih]
      simp [hxy]

lemma move_at_pos_some_iff (player : Player) (die : ℕ) (st : GameState)
    (ah : Bool) (p' : ℕ) (m : Move) :
    move_at_pos player die st ah p' = some m ↔
      (0 < st.board.getD (p' - 1) 0 * p_sign player ∧
        (((1 ≤ (if player = .w then (p' : ℤ) + die else (p' : ℤ) - die) ∧
            (if player = .w then (p' : ℤ) + die else (p' : ℤ) - die) ≤ 24) ∧
          (st.board.getD
              ((if player = .w then (p' : ℤ) + die else (p' : ℤ) - die) - 1).toNat 0 *
                p_sign player ≥ 0 ∨
            |st.board.getD
              ((if player = .w then (p' : ℤ) + die else (p' : ℤ) - die) - 1).toNat 0| = 1) ∧
          m = (Loc.pt p',
            Loc.pt (if player = .w then (p' : ℤ) + die else (p' : ℤ) - die).toNat)) ∨
        (¬(1 ≤ (if player = .w then (p' : ℤ) + die else (p' : ℤ) - die) ∧
            (if player = .w then (p' : ℤ) + die else (p' : ℤ) - die) ≤ 24) ∧
          ah = true ∧ can_bear_off player p' die st = true ∧
          m = (Loc.pt p', Loc.off)))) := by
  have main : ∀ dp : ℤ,
      ((if 0 < st.board.getD (p' - 1) 0 * p_sign player then
        if 1 ≤ dp ∧ dp ≤ 24 then
          if st.board.getD (dp - 1).toNat 0 * p_sign player ≥ 0 ∨
              |st.board.getD (dp - 1).toNat 0| = 1 then
            some ((Loc.pt p', Loc.pt dp.toNat) : Move)
          else none
        else if ah then
          if can_bear_off player p' die st then some (Loc.pt p', Loc.off)
          else none
        else none
      else none) = some m) ↔
      (0 < st.board.getD (p' - 1) 0 * p_sign player ∧
        (((1 ≤ dp ∧ dp ≤ 24) ∧
          (st.board.getD (dp - 1).toNat 0 * p_sign player ≥ 0 ∨
            |st.board.getD (dp - 1).toNat 0| = 1) ∧
          m = (Loc.pt p', Loc.pt dp.toNat)) ∨
        (¬(1 ≤ dp ∧ dp ≤ 24) ∧ ah = true ∧
          can_bear_off player p' die st = true ∧
          m = (Loc.pt p', Loc.off)))) := by
    intro dp
    split_ifs with h1 h2 h3 h4 h5
    · simp only [Option.some.injEq]
      constructor
      · intro h
        exact ⟨h1, Or.inl ⟨h2, h3, h.symm⟩⟩
      · rintro ⟨-, (⟨-, -, heq⟩ | ⟨hno, -⟩)⟩
        · exact heq.symm
        · exact absurd h2 hno
    · simp only [reduceCtorEq, false_iff]
      rintro ⟨-, (⟨-, hal, -⟩ | ⟨hno, -⟩)⟩
      · exact h3 hal
      · exact hno h2
    · simp only [Option.some.injEq]
      constructor
      · intro h
        exact ⟨h1, Or.inr ⟨h2, h4, h5, h.symm⟩⟩
      · rintro ⟨-, (⟨hin, -⟩ | ⟨-, -, -, heq⟩)⟩
        · exact absurd hin h2
        · exact heq.symm
    · simp only [reduceCtorEq, false_iff]
      rintro ⟨-, (⟨hin, -⟩ | ⟨-, -, hcbo, -⟩)⟩
      · exact absurd hin h2
      · exact absurd hcbo h5
    · simp only [reduceCtorEq, false_iff]
      rintro ⟨-, (⟨hin, -⟩ | ⟨-, hah, -⟩)⟩
      · exact absurd hin h2
      · exact absurd hah h4
    · simp only [reduceCtorEq, false_iff]
      rintro ⟨hchk, -⟩
      exact absurd hchk h1
  exact main (if player = .w then (p' : ℤ) + die else (p' : ℤ) - die)

lemma getD_set_self (l : List ℤ) (i : ℕ) (x : ℤ) (h : i < l.length) :
    (l.set i x).getD i 0 = x := by
  simp [List.getD, List.getElem?_set_self, h]

lemma getD_set_ne (l : List ℤ) (i j : ℕ) (x : ℤ) (h : i ≠ j) :
    (l.set i x).getD j 0 = l.getD j 0 := by
  simp [List.getD, List.getElem?_set_ne, h]

lemma getD_nonzero_lt_length (l : List ℤ) (i : ℕ) (h : l.getD i 0 ≠ 0) :
    i < l.length := by
  by_contra hc
  exact h (List.getD_eq_default _ _ (by omega))

lemma p_sign_cases (player : Player) : p_sign player = 1 ∨ p_sign player = -1 := by
  cases player <;> simp [p_sign]

lemma not_blocked_of_allowed (c ps : ℤ) (hps : ps = 1 ∨ ps = -1)
    (h : c * ps ≥ 0 ∨ |c| = 1) : ¬(c * ps < 0 ∧ |c| ≥ 2) := by
  rcases abs_cases c with ⟨ha, hc⟩ | ⟨ha, hc⟩ <;> rcases hps with rfl | rfl <;>
    omega

lemma base_logic_succeeds (st : GameState) (player : Player) (die : ℕ)
    (m : Move) (hm : m ∈ get_single_moves_for_die player die st) :
    (make_move_base_logic st player m.1 m.2).1 = true := by
  unfold get_single_moves_for_die at hm
  by_cases hpb : (if player = .w then st.white_bar else st.black_bar) > 0
  · rw [if_pos hpb] at hm
    have main : ∀ ep : ℤ,
        m ∈ (if 1 ≤ ep ∧ ep ≤ 24 then
          (if st.board.getD (ep - 1).toNat 0 * p_sign player ≥ 0 ∨
              |st.board.getD (ep - 1).toNat 0| = 1 then
            [((Loc.bar : Loc), Loc.pt ep.toNat)] else [])
          else []) →
        m = (Loc.bar, Loc.pt ep.toNat) ∧ 1 ≤ ep ∧ ep ≤ 24 ∧
          (st.board.getD (ep - 1).toNat 0 * p_sign player ≥ 0 ∨
            |st.board.getD (ep - 1).toNat 0| = 1) := by
      intro ep h
      split_ifs at h with h1 h2
      · rw [List.mem_singleton] at h
        exact ⟨h, h1.1, h1.2, h2⟩
      · exact absurd h (List.not_mem_nil _)
      · exact absurd h (List.not_mem_nil _)
    obtain ⟨heqm, h1, h2, hal⟩ :=
      main (if player = .w then (die : ℤ) else 25 - (die : ℤ)) hm
    subst heqm
    set ep : ℤ := if player = .w then (die : ℤ) else 25 - (die : ℤ) with hep
    have hidx : (ep - 1).toNat = ep.toNat - 1 := by omega
    rw [hidx] at hal
    have hnb := not_blocked_of_allowed _ _ (p_sign_cases player) hal
    cases player with
    | w =>
      have hwb : st.white_bar > 0 := by simpa using hpb
      show (make_move_base_logic st .w Loc.bar (Loc.pt ep.toNat)).1 = true
      simp only [make_move_base_logic, base_logic_apply_dst, reduceIte]
      rw [if_pos hwb, if_pos (by omega : 1 ≤ ep.toNat ∧ ep.toNat ≤ 24)]
      split_ifs with hblk <;> first | rfl | (exact absurd hblk hnb)
    | b =>
      have hbb : st.black_bar > 0 := by simpa using hpb
      show (make_move_base_logic st .b Loc.bar (Loc.pt ep.toNat)).1 = true
      simp only [make_move_base_logic, base_logic_apply_dst, reduceCtorEq,
        reduceIte]
      rw [if_pos hbb, if_pos (by omega : 1 ≤ ep.toNat ∧ ep.toNat ≤ 24)]
      split_ifs with hblk <;> first | rfl | (exact absurd hblk hnb)
  · rw [if_neg hpb, List.mem_filterMap] at hm
    obtain ⟨p', hp'mem, hsome⟩ := hm
    rw [move_at_pos_some_iff] at hsome
    obtain ⟨hchk, hcase⟩ := hsome
    have hp'rng : 1 ≤ p' ∧ p' < 25 := by
      rw [List.mem_range'_1] at hp'mem; omega
    have hlen : p' - 1 < st.board.length :=
      getD_nonzero_lt_length _ _ (by
        intro h0
        rw [h0] at hchk
        simp at hchk)
    set dp : ℤ := if player = .w then (p' : ℤ) + die else (p' : ℤ) - die
      with hdp
    rcases hcase with ⟨hin, hal, heq⟩ | ⟨-, -, -, heq⟩
    · subst heq
      have hidx : (dp - 1).toNat = dp.toNat - 1 := by omega
      rw [hidx] at hal
      have hv : ¬ (st.board.getD (p' - 1) 0 * p_sign player ≤ 0) := by omega
      show (make_move_base_logic st player (Loc.pt p') (Loc.pt dp.toNat)).1 = true
      simp only [make_move_base_logic, base_logic_apply_dst]
      rw [if_pos (by omega : 1 ≤ p' ∧ p' ≤ 24), if_neg hv,
        if_pos (by omega : 1 ≤ dp.toNat ∧ dp.toNat ≤ 24)]
      by_cases hsame : dp.toNat - 1 = p' - 1
      · rw [hsame, getD_set_self _ _ _ (by omega)]
        rcases p_sign_cases player with hps | hps <;>
          · rw [hps] at hchk ⊢
            split_ifs with hblk <;> first | rfl | (exfalso; omega)
      · rw [getD_set_ne _ _ _ _ (fun hh => hsame hh.symm)]
        have hnb := not_blocked_of_allowed _ _ (p_sign_cases player) hal
        split_ifs with hblk <;> first | rfl | (exact absurd hblk hnb)
    · subst heq
      have hv : ¬ (st.board.getD (p' - 1) 0 * p_sign player ≤ 0) := by omega
      show (make_move_base_logic st player (Loc.pt p') Loc.off).1 = true
      simp only [make_move_base_logic, base_logic_apply_dst]
      rw [if_pos (by omega : 1 ≤ p' ∧ p' ≤ 24), if_neg hv]
      cases player <;> rfl

lemma dedup_pair (a b : ℕ) (h : a ≠ b) : dedup_keep_first [a, b] = [a, b] := by
  simp [dedup_keep_first, List.filter, Ne.symm h]

lemma sorted_desc_pair (a b : ℕ) : sorted_desc [a, b] = [max a b, min a b] := by
  rcases le_or_lt b a with h | h
  · simp [sorted_desc, insert_desc, h, max_eq_left h, min_eq_right h]
  · simp [sorted_desc, insert_desc, not_le.mpr h, le_of_lt h,
      max_eq_right (le_of_lt h), min_eq_left (le_of_lt h)]

/-- Claim-side: playing `first` by some legal single move leaves a state
from which `second` still has a legal single move. -/
def order_plays_both (st : GameState) (player : Player) (first second : ℕ) :
    Prop :=
  ∃ mv ∈ get_single_moves_for_die player first st,
    get_single_moves_for_die player second
      (make_move_base_logic st player mv.1 mv.2).2 ≠ []

lemma any_try_order_iff (st : GameState) (player : Player) (f s : ℕ) :
    ((get_single_moves_for_die player f st).any (fun mv =>
      (make_move_base_logic st player mv.1 mv.2).1 &&
        decide (get_single_moves_for_die player s
          (make_move_base_logic st player mv.1 mv.2).2 ≠ []))) = true ↔
      order_plays_both st player f s := by
  rw [List.any_eq_true]
  constructor
  · rintro ⟨mv, hmem, hb⟩
    rw [Bool.and_eq_true, decide_eq_true_eq] at hb
    exact ⟨mv, hmem, hb.2⟩
  · rintro ⟨mv, hmem, hne⟩
    refine ⟨mv, hmem, ?_⟩
    rw [Bool.and_eq_true, decide_eq_true_eq]
    exact ⟨base_logic_succeeds st player f mv hmem, hne⟩


/-- C2: the forced-die resolver on a non-double two-die roll.  With both
dice individually playable, `[larger, smaller]` is returned when some
order plays both and `[larger]` otherwise; with exactly one playable,
that one is returned; with none, the empty list. -/
theorem c2_forced_die_resolver (st : GameState) (player : Player) (a b : ℕ)
    (hab : a ≠ b) :
    (get_single_moves_for_die player (max a b) st = [] ∧
      get_single_moves_for_die player (min a b) st = [] →
        get_strictly_playable_dice st [a, b] player = []) ∧
    (get_single_moves_for_die player (max a b) st ≠ [] ∧
      get_single_moves_for_die player (min a b) st = [] →
        get_strictly_playable_dice st [a, b] player = [max a b]) ∧
    (get_single_moves_for_die player (max a b) st = [] ∧
      get_single_moves_for_die player (min a b) st ≠ [] →
        get_strictly_playable_dice st [a, b] player = [min a b]) ∧
    (get_single_moves_for_die player (max a b) st ≠ [] ∧
      get_single_moves_for_die player (min a b) st ≠ [] →
      ((order_plays_both st player (max a b) (min a b) ∨
          order_plays_both st player (min a b) (max a b)) →
        get_strictly_playable_dice st [a, b] player = [max a b, min a b]) ∧
      (¬(order_plays_both st player (max a b) (min a b) ∨
          order_plays_both st player (min a b) (max a b)) →
        get_strictly_playable_dice st [a, b] player = [max a b])) := by
  have hmm : min a b ≠ max a b := by omega
  refine ⟨?_, ?_, ?_, ?_⟩
  · rintro ⟨pL, pS⟩
    unfold get_strictly_playable_dice
    rw [dedup_pair a b hab, sorted_desc_pair a b]
    simp [pL, pS]
  · rintro ⟨pL, pS⟩
    unfold get_strictly_playable_dice
    rw [dedup_pair a b hab, sorted_desc_pair a b]
    simp [pL, pS, hab, hmm]
  · rintro ⟨pL, pS⟩
    unfold get_strictly_playable_dice
    rw [dedup_pair a b hab, sorted_desc_pair a b]
    simp [pL, pS, hab, hmm]
  · rintro ⟨pL, pS⟩
    constructor
    · intro hord
      unfold get_strictly_playable_dice
      rw [dedup_pair a b hab, sorted_desc_pair a b]
      simp [hab, hmm, pL, pS]
      intro hLS
      rcases hord with ⟨mv, hmem, hne⟩ | ⟨mv, hmem, hne⟩
      · exact absurd (hLS mv.1 mv.2 hmem (base_logic_succeeds _ _ _ mv hmem)) hne
      · exact ⟨mv.1, mv.2, hmem, base_logic_succeeds _ _ _ mv hmem, hne⟩
    · intro hord
      unfold get_strictly_playable_dice
      rw [dedup_pair a b hab, sorted_desc_pair a b]
      simp [hab, hmm, pL, pS]
      obtain ⟨hA, hB⟩ := not_or.mp hord
      constructor
      · intro x x1 hmem hok
        by_contra hne
        exact hA ⟨(x, x1), hmem, hne⟩
      · intro x x1 hmem hok
        by_contra hne
        exact hB ⟨(x, x1), hmem, hne⟩

/-- A state matching the spec test vector for forced dice: white on the
bar, entry point 5 blocked by two black checkers, entry point 2 open. -/
def c2_example_state : GameState :=
  { initial_state with
    white_bar := 1
    board := [2, 0, 0, 0, -2, -5, 0, -3, 0, 0, 0, 5,
              -5, 0, 0, 0, 3, 0, 5, 0, 0, 0, 0, -2] }

/-- Witness for C2 at a concrete input: die 5 has no legal move, die 2
does, and the resolver returns exactly `[2]`. -/
theorem c2_forced_die_resolver_witness :
    ((get_single_moves_for_die Player.w (max 5 2) c2_example_state = [] ∧
        get_single_moves_for_die Player.w (min 5 2) c2_example_state ≠ []) ∧
      get_strictly_playable_dice c2_example_state [5, 2] Player.w = [2]) ∧
    ((get_single_moves_for_die Player.w (max 5 2) c2_example_state = [] ∧
      get_single_moves_for_die Player.w (min 5 2) c2_example_state = [] →
        get_strictly_playable_dice c2_example_state [5, 2] Player.w = []) ∧
    (get_single_moves_for_die Player.w (max 5 2) c2_example_state ≠ [] ∧
      get_single_moves_for_die Player.w (min 5 2) c2_example_state = [] →
        get_strictly_playable_dice c2_example_state [5, 2] Player.w = [max 5 2]) ∧
    (get_single_moves_for_die Player.w (max 5 2) c2_example_state = [] ∧
      get_single_moves_for_die Player.w (min 5 2) c2_example_state ≠ [] →
        get_strictly_playable_dice c2_example_state [5, 2] Player.w = [min 5 2]) ∧
    (get_single_moves_for_die Player.w (max 5 2) c2_example_state ≠ [] ∧
      get_single_moves_for_die Player.w (min 5 2) c2_example_state ≠ [] →
      ((order_plays_both c2_example_state Player.w (max 5 2) (min 5 2) ∨
          order_plays_both c2_example_state Player.w (min 5 2) (max 5 2)) →
        get_strictly_playable_dice c2_example_state [5, 2] Player.w =
          [max 5 2, min 5 2]) ∧
      (¬(order_plays_both c2_example_state Player.w (max 5 2) (min 5 2) ∨
          order_plays_both c2_example_state Player.w (min 5 2) (max 5 2)) →
        get_strictly_playable_dice c2_example_state [5, 2] Player.w =
          [max 5 2]))) :=
  ⟨⟨⟨by decide, by decide⟩, by decide⟩,
    c2_forced_die_resolver c2_example_state Player.w 5 2 (by decide)⟩

lemma is_game_over_counts (st : GameState) :
    get_total_checker_count (is_game_over st).2 = get_total_checker_count st := by
  unfold is_game_over
  split_ifs <;> rfl

lemma is_game_over_fields (st : GameState) :
    (is_game_over st).2.board = st.board ∧
    (is_game_over st).2.white_bar = st.white_bar ∧
    (is_game_over st).2.black_bar = st.black_bar ∧
    (is_game_over st).2.white_off = st.white_off ∧
    (is_game_over st).2.black_off = st.black_off ∧
    (is_game_over st).2.dice = st.dice ∧
    (is_game_over st).2.available_moves = st.available_moves := by
  unfold is_game_over
  split_ifs <;> exact ⟨rfl, rfl, rfl, rfl, rfl, rfl, rfl⟩


/-- C3 (amended): on an unexpected exception while applying a move the
snapshot of board/bars/offs/dice is restored, the legal-move cache is
recomputed and the game is marked with the `"ERROR"` winner sentinel with
`False` returned; on a failed checker-count conservation check the game
is likewise marked `"ERROR"` and `False` is returned, but the mutation is
NOT rolled back: the returned state keeps the mutated board, bars, offs,
and the consumed die stays removed from the dice pool. -/

theorem c3_error_handling (st : GameState) (src dst : Loc) (d : ℕ)
    (hdie : find_die_to_remove st src dst st.current_player = some d) :
    (make_move_apply st src dst st.current_player = none →
      make_move st src dst =
        (false, { st with available_moves := get_legal_actions st,
                          winner := Winner.error })) ∧
    (∀ st1 : GameState, make_move_apply st src dst st.current_player = some st1 →
      get_total_checker_count st1 ≠ (15, 15) →
        (make_move st src dst).1 = false ∧
        (make_move st src dst).2.winner = Winner.error ∧
        (make_move st src dst).2.board = st1.board ∧
        (make_move st src dst).2.white_bar = st1.white_bar ∧
        (make_move st src dst).2.black_bar = st1.black_bar ∧
        (make_move st src dst).2.white_off = st1.white_off ∧
        (make_move st src dst).2.black_off = st1.black_off ∧
        (make_move st src dst).2.dice = st1.dice.erase d) := by
  constructor
  · intro happ
    simp only [make_move, hdie, happ]
  · intro st1 happ hcnt
    simp only [make_move, hdie, happ]
    set stD : GameState := { st1 with dice := st1.dice.erase d } with hstD
    set stA : GameState := { stD with available_moves := get_legal_actions stD }
      with hstA
    have hc : get_total_checker_count (is_game_over stA).2 =
        get_total_checker_count st1 := by
      rw [is_game_over_counts]
      rfl
    have hcond : (get_total_checker_count (is_game_over stA).2).1 ≠ 15 ∨
        (get_total_checker_count (is_game_over stA).2).2 ≠ 15 := by
      rw [hc]
      by_contra hno
      push_neg at hno
      exact hcnt (Prod.ext hno.1 hno.2)
    rw [if_pos hcond]
    obtain ⟨hb, hwb, hbb, hwo, hbo, hd, -⟩ := is_game_over_fields stA
    exact ⟨rfl, rfl, hb, hwb, hbb, hwo, hbo, hd⟩

/-- A state violating checker-count conservation (a single white
checker), used to drive `make_move` into the failed-conservation-check
path. -/
def c3_example_state : GameState :=
  { initial_state with
    board := [1, 0, 0, 0, 0, 0, 0, 0, 0, 0, 0, 0,
              0, 0, 0, 0, 0, 0, 0, 0, 0, 0, 0, 0]
    dice := [1] }

/-- The state `make_move_apply` produces from `c3_example_state` for the
move `1/2`. -/
def c3_mut_state : GameState :=
  { c3_example_state with
    board := [0, 1, 0, 0, 0, 0, 0, 0, 0, 0, 0, 0,
              0, 0, 0, 0, 0, 0, 0, 0, 0, 0, 0, 0] }

/-- A state where the move `1/3` targets a point blocked by two black
checkers, driving `make_move` into its exception path. -/
def c3_blocked_state : GameState :=
  { initial_state with
    board := [1, 0, -2, 0, 0, 0, 0, 0, 0, 0, 0, 0,
              0, 0, 0, 0, 0, 0, 0, 0, 0, 0, 0, 0]
    dice := [2] }

/-- C3 counterexample: on a failed checker-count conservation check
`make_move` returns `False` and marks the `"ERROR"` state, but the
board and dice pool are NOT rolled back to the pre-move snapshot,
contradicting the claim as stated. -/
theorem c3_no_rollback_counterexample :
    (make_move c3_example_state (Loc.pt 1) (Loc.pt 2)).1 = false ∧
    (make_move c3_example_state (Loc.pt 1) (Loc.pt 2)).2.winner = Winner.error ∧
    (make_move c3_example_state (Loc.pt 1) (Loc.pt 2)).2.board ≠
      c3_example_state.board ∧
    (make_move c3_example_state (Loc.pt 1) (Loc.pt 2)).2.dice ≠
      c3_example_state.dice := by
  decide

/-- Witness for the amended C3 at concrete inputs: the exception path
rolls back and marks `"ERROR"`; the conservation-failure path keeps the
mutated state. -/
theorem c3_error_handling_witness :
    (make_move c3_blocked_state (Loc.pt 1) (Loc.pt 3) =
      (false, { c3_blocked_state with
                available_moves := get_legal_actions c3_blocked_state,
                winner := Winner.error })) ∧
    ((make_move c3_example_state (Loc.pt 1) (Loc.pt 2)).1 = false ∧
      (make_move c3_example_state (Loc.pt 1) (Loc.pt 2)).2.winner =
        Winner.error ∧
      (make_move c3_example_state (Loc.pt 1) (Loc.pt 2)).2.board =
        c3_mut_state.board ∧
      (make_move c3_example_state (Loc.pt 1) (Loc.pt 2)).2.white_bar =
        c3_mut_state.white_bar ∧
      (make_move c3_example_state (Loc.pt 1) (Loc.pt 2)).2.black_bar =
        c3_mut_state.black_bar ∧
      (make_move c3_example_state (Loc.pt 1) (Loc.pt 2)).2.white_off =
        c3_mut_state.white_off ∧
      (make_move c3_example_state (Loc.pt 1) (Loc.pt 2)).2.black_off =
        c3_mut_state.black_off ∧
      (make_move c3_example_state (Loc.pt 1) (Loc.pt 2)).2.dice =
        c3_mut_state.dice.erase 1) :=
  ⟨(c3_error_handling c3_blocked_state (Loc.pt 1) (Loc.pt 3) 2
      (by decide)).1 (by decide),
    (c3_error_handling c3_example_state (Loc.pt 1) (Loc.pt 2) 1
      (by decide)).2 c3_mut_state (by decide) (by decide)⟩

/-! ### Turn-sequence enumerator -/

abbrev MemoKey := BoardKey × List ℕ

abbrev Outcomes := List (BoardKey × (GameState × List Move))

/-- The search accumulator: the memo set and the insertion-ordered map of
final outcomes (`possible_final_outcomes` in the source, a Python dict:
assignment to an existing key keeps its position, a new key appends). -/
abbrev SearchAcc := List MemoKey × Outcomes

/-- `possible_final_outcomes[key] = (state, seq)` under the guard
`key not in ... or len(seq) < len(existing seq)`. -/
def store_outcome : Outcomes → BoardKey → GameState → List Move → Outcomes
  | [], key, st, seq => [(key, (st, seq))]
  | (k, v) :: rest, key, st, seq =>
    if k = key then
      if seq.length < v.2.length then (k, (st, seq)) :: rest
      else (k, v) :: rest
    else (k, v) :: store_outcome rest key st seq

/-- Which die instance a candidate move consumes: the nominal die when it
matches `die_val` and is available, otherwise for a bear-off the smallest
available die capable of the overshoot (and only when `die_val` is that
smallest valid die). -/
def consumed_die_for (st : GameState) (dice_rem : List ℕ) (player : Player)
    (die_val : ℕ) (src dst : Loc) : Option ℕ :=
  let nominal := get_die_for_move src dst player
  if nominal = some die_val ∧ die_val ∈ dice_rem then some die_val
  else
    match src, dst with
    | .pt s, .off =>
      let needed : ℤ := if player = .w then 25 - (s : ℤ) else (s : ℤ)
      if (die_val : ℤ) ≥ needed ∧ can_bear_off player s die_val st = true ∧
          die_val ∈ dice_rem then
        let valid_overshoot := sorted_asc (dice_rem.filter (fun dd =>
          decide ((dd : ℤ) ≥ needed) && can_bear_off player s dd st))
        match valid_overshoot with
        | smallest :: _ => if die_val = smallest then some die_val else none
        | [] => none
      else none
    | _, _ => none

/-- `find_sequences_recursive`.  The extra `fuel` argument only realises
termination: every call site passes `fuel = dice_rem.length + 1` and each
recursive call removes one die, so the `fuel = 0` branch is never
reached. -/
def find_sequences_recursive (player : Player) (fuel : ℕ)
    (state_now : GameState) (dice_rem : List ℕ)
    (sequence_so_far : List Move) (acc : SearchAcc) : SearchAcc :=
  let state_key_memo : MemoKey := (board_tuple state_now, dice_rem)
  if state_key_memo ∈ acc.1 then acc
  else
    let memo := state_key_memo :: acc.1
    let current_key := board_tuple state_now
    if dice_rem = [] then
      (memo, store_outcome acc.2 current_key state_now sequence_so_far)
    else
      match fuel with
      | 0 => (memo, acc.2)
      | fuel' + 1 =>
        let allowed :=
          get_strictly_playable_dice state_now dice_rem player
        if allowed = [] then
          (memo, store_outcome acc.2 current_key state_now sequence_so_far)
        else
          let res := allowed.foldl (fun (acc1 : SearchAcc × Bool) die_val =>
            let moves := get_single_moves_for_die player die_val state_now
            if moves ≠ [] then
              (moves.foldl (fun (acc2 : SearchAcc) mv =>
                match consumed_die_for state_now dice_rem player die_val
                    mv.1 mv.2 with
                | none => acc2
                | some cd =>
                  let next := make_move_base_logic state_now player mv.1 mv.2
                  if next.1 then
                    find_sequences_recursive player fuel' next.2
                      (sorted_asc (dice_rem.erase cd))
                      (sequence_so_far ++ [mv]) acc2
                  else acc2) acc1.1, true)
            else acc1) ((memo, acc.2), false)
          if res.2 then res.1
          else (res.1.1,
            store_outcome res.1.2 current_key state_now sequence_so_far)

/-- The seeded searches of
`generate_possible_next_states_with_sequences`: one per initial dice
permutation. -/
def collected_outcomes (current_game_state : GameState)
    (dice_tuple : List ℕ) (player : Player) : SearchAcc :=
  let initial_dice_perms : List (List ℕ) :=
    if dice_tuple.length = 4 then [dice_tuple]
    else match dice_tuple with
      | [d1, d2] => if d1 ≠ d2 then [[d1, d2], [d2, d1]] else [[d1, d1]]
      | _ => [dice_tuple]
  initial_dice_perms.foldl (fun acc perm =>
    let search_start_state := { current_game_state with dice := perm }
    find_sequences_recursive player (perm.length + 1) search_start_state
      (sorted_asc perm) [] acc) ([], [])

/-- The tail of `generate_possible_next_states_with_sequences`: the
maximum-dice-played filter applied to the collected outcome table
(`possible_final_outcomes.values()`), including the no-outcome and the
`max_len == 0` special cases and the empty-filter fallback. -/
def max_dice_filter (current_game_state : GameState)
    (outs : Outcomes) : List (GameState × List Move) :=
  match outs with
  | [] => [(current_game_state, [])]
  | o :: rest =>
    let max_len := ((o :: rest).map (fun oc => oc.2.2.length)).foldl max 0
    if max_len = 0 then [o.2]
    else
      match ((o :: rest).filter (fun oc => oc.2.2.length = max_len)).map
          (fun oc => oc.2) with
      | [] => (o :: rest).map (fun oc => oc.2)
      | r :: rs => r :: rs

/-- `generate_possible_next_states_with_sequences`. -/
def generate_possible_next_states_with_sequences
    (current_game_state : GameState) (dice_tuple : List ℕ)
    (player : Player) : List (GameState × List Move) :=
  if dice_tuple = [] then [(current_game_state, [])]
  else max_dice_filter current_game_state
    (collected_outcomes current_game_state dice_tuple player).2

/-- The maximum sequence length over all collected terminal outcomes. -/
def collected_max_len (current_game_state : GameState)
    (dice_tuple : List ℕ) (player : Player) : ℕ :=
  if dice_tuple = [] then 0
  else (((collected_outcomes current_game_state dice_tuple player).2).map
    (fun o => o.2.2.length)).foldl max 0


lemma base_le_foldl_max (l : List ℕ) (a : ℕ) : a ≤ l.foldl max a := by
  induction l generalizing a with
  | nil => exact le_refl a
  | cons y ys ih => exact le_trans (le_max_left a y) (ih (max a y))

lemma le_foldl_max (l : List ℕ) : ∀ (a x : ℕ), x ∈ l → x ≤ l.foldl max a := by
  induction l with
  | nil => intro a x hx; cases hx
  | cons y ys ih =>
    intro a x hx
    rcases List.mem_cons.mp hx with rfl | hx'
    · exact le_trans (le_max_right a x) (base_le_foldl_max ys (max a x))
    · exact ih (max a y) x hx'

lemma foldl_max_mem (l : List ℕ) : ∀ a, l.foldl max a = a ∨ l.foldl max a ∈ l := by
  induction l with
  | nil => intro a; exact Or.inl rfl
  | cons y ys ih =>
    intro a
    rw [List.foldl_cons]
    rcases ih (max a y) with h | h
    · rw [h]
      rcases max_choice a y with h2 | h2
      · exact Or.inl h2
      · exact Or.inr (by rw [h2]; exact List.mem_cons_self y ys)
    · exact Or.inr (List.mem_cons_of_mem _ h)

lemma mem_store_outcome (outs : Outcomes) (key : BoardKey) (st : GameState)
    (seq : List Move) (e : BoardKey × (GameState × List Move))
    (he : e ∈ store_outcome outs key st seq) :
    e ∈ outs ∨ e = (key, (st, seq)) := by
  induction outs with
  | nil =>
    rw [store_outcome, List.mem_singleton] at he
    exact Or.inr he
  | cons kv rest ih =>
    rw [store_outcome] at he
    split_ifs at he with h1 h2
    · rcases List.mem_cons.mp he with rfl | hrest
      · exact Or.inr (by rw [h1])
      · exact Or.inl (List.mem_cons_of_mem _ hrest)
    · rcases List.mem_cons.mp he with rfl | hrest
      · exact Or.inl (List.mem_cons_self _ _)
      · exact Or.inl (List.mem_cons_of_mem _ hrest)
    · rcases List.mem_cons.mp he with rfl | hrest
      · exact Or.inl (List.mem_cons_self _ _)
      · rcases ih hrest with h | h
        · exact Or.inl (List.mem_cons_of_mem _ h)
        · exact Or.inr h

lemma foldl_acc_mono {σ β : Type} (proj : σ → Outcomes) (f : σ → β → σ)
    (P : BoardKey × (GameState × List Move) → Prop)
    (hf : ∀ acc x e, e ∈ proj (f acc x) → e ∈ proj acc ∨ P e) :
    ∀ (l : List β) (acc : σ) e, e ∈ proj (l.foldl f acc) → e ∈ proj acc ∨ P e := by
  intro l
  induction l with
  | nil => intro acc e h; exact Or.inl h
  | cons x xs ih =>
    intro acc e h
    rcases ih (f acc x) e h with h' | h'
    · exact hf acc x e h'
    · exact Or.inr h'

lemma find_seq_zero (player : Player) (stn : GameState) (dice : List ℕ)
    (seq : List Move) (acc : SearchAcc) :
    find_sequences_recursive player 0 stn dice seq acc =
      (if ((board_tuple stn, dice) : MemoKey) ∈ acc.1 then acc
       else if dice = [] then
         ((board_tuple stn, dice) :: acc.1,
           store_outcome acc.2 (board_tuple stn) stn seq)
       else ((board_tuple stn, dice) :: acc.1, acc.2)) := rfl

/-- The inner fold over candidate moves of one playable die (named for
proof purposes; definitionally the inner lambda of
`find_sequences_recursive`). -/
def search_moves_fold (player : Player) (fuel' : ℕ) (stn : GameState)
    (dice : List ℕ) (seq : List Move) (die_val : ℕ) (acc2 : SearchAcc)
    (mv : Move) : SearchAcc :=
  match consumed_die_for stn dice player die_val mv.1 mv.2 with
  | none => acc2
  | some cd =>
    if (make_move_base_logic stn player mv.1 mv.2).1 then
      find_sequences_recursive player fuel'
        (make_move_base_logic stn player mv.1 mv.2).2
        (sorted_asc (dice.erase cd)) (seq ++ [mv]) acc2
    else acc2

/-- The outer fold over the playable dice. -/
def search_dice_fold (player : Player) (fuel' : ℕ) (stn : GameState)
    (dice : List ℕ) (seq : List Move) (acc1 : SearchAcc × Bool)
    (die_val : ℕ) : SearchAcc × Bool :=
  if get_single_moves_for_die player die_val stn ≠ [] then
    ((get_single_moves_for_die player die_val stn).foldl
      (search_moves_fold player fuel' stn dice seq die_val) acc1.1, true)
  else acc1

lemma find_seq_succ (player : Player) (fuel' : ℕ) (stn : GameState)
    (dice : List ℕ) (seq : List Move) (acc : SearchAcc) :
    find_sequences_recursive player (fuel' + 1) stn dice seq acc =
      (if ((board_tuple stn, dice) : MemoKey) ∈ acc.1 then acc
       else
        if dice = [] then
          ((board_tuple stn, dice) :: acc.1,
            store_outcome acc.2 (board_tuple stn) stn seq)
        else
          if get_strictly_playable_dice stn dice player = [] then
            ((board_tuple stn, dice) :: acc.1,
              store_outcome acc.2 (board_tuple stn) stn seq)
          else
            if ((get_strictly_playable_dice stn dice player).foldl
                (search_dice_fold player fuel' stn dice seq)
                ((((board_tuple stn, dice) :: acc.1), acc.2), false)).2 then
              ((get_strictly_playable_dice stn dice player).foldl
                (search_dice_fold player fuel' stn dice seq)
                ((((board_tuple stn, dice) :: acc.1), acc.2), false)).1
            else
              (((get_strictly_playable_dice stn dice player).foldl
                  (search_dice_fold player fuel' stn dice seq)
                  ((((board_tuple stn, dice) :: acc.1), acc.2), false)).1.1,
                store_outcome
                  ((get_strictly_playable_dice stn dice player).foldl
                    (search_dice_fold player fuel' stn dice seq)
                    ((((board_tuple stn, dice) :: acc.1), acc.2), false)).1.2
                  (board_tuple stn) stn seq)) := rfl

lemma search_moves_fold_entries (player : Player) (fuel' : ℕ)
    (stn : GameState) (dice : List ℕ) (seq : List Move) (die_val : ℕ)
    (ih : ∀ (stn2 : GameState) (dice2 : List ℕ) (seq2 : List Move)
      (acc : SearchAcc) (e : BoardKey × (GameState × List Move)),
      e ∈ (find_sequences_recursive player fuel' stn2 dice2 seq2 acc).2 →
      e ∈ acc.2 ∨ seq2.length ≤ e.2.2.length) :
    ∀ (acc2 : SearchAcc) (mv : Move) (e : BoardKey × (GameState × List Move)),
      e ∈ (search_moves_fold player fuel' stn dice seq die_val acc2 mv).2 →
      e ∈ acc2.2 ∨ seq.length + 1 ≤ e.2.2.length := by
  intro acc2 mv e he
  rw [search_moves_fold] at he
  rcases hcd : consumed_die_for stn dice player die_val mv.1 mv.2 with _ | cd
  · rw [hcd] at he
    exact Or.inl he
  · rw [hcd] at he
    split_ifs at he with hok
    · rcases ih _ _ _ _ _ he with h | h
      · exact Or.inl h
      · refine Or.inr ?_
        rw [List.length_append] at h
        simpa using h
    · exact Or.inl he

lemma search_dice_fold_entries (player : Player) (fuel' : ℕ)
    (stn : GameState) (dice : List ℕ) (seq : List Move)
    (ih : ∀ (stn2 : GameState) (dice2 : List ℕ) (seq2 : List Move)
      (acc : SearchAcc) (e : BoardKey × (GameState × List Move)),
      e ∈ (find_sequences_recursive player fuel' stn2 dice2 seq2 acc).2 →
      e ∈ acc.2 ∨ seq2.length ≤ e.2.2.length) :
    ∀ (l : List ℕ) (acc1 : SearchAcc × Bool)
      (e : BoardKey × (GameState × List Move)),
      e ∈ (l.foldl (search_dice_fold player fuel' stn dice seq) acc1).1.2 →
      e ∈ acc1.1.2 ∨ seq.length + 1 ≤ e.2.2.length := by
  refine foldl_acc_mono (fun a : SearchAcc × Bool => a.1.2) _ _ ?_
  intro acc1 die_val e he
  rw [search_dice_fold] at he
  split_ifs at he with hmv
  · exact foldl_acc_mono (fun a : SearchAcc => a.2) _ _
      (search_moves_fold_entries player fuel' stn dice seq die_val ih)
      _ acc1.1 e he
  · exact Or.inl he

lemma find_seq_new_entries (player : Player) :
    ∀ (fuel : ℕ) (stn : GameState) (dice : List ℕ) (seq : List Move)
      (acc : SearchAcc) (e : BoardKey × (GameState × List Move)),
      e ∈ (find_sequences_recursive player fuel stn dice seq acc).2 →
      e ∈ acc.2 ∨ seq.length ≤ e.2.2.length := by
  intro fuel
  induction fuel with
  | zero =>
    intro stn dice seq acc e he
    rw [find_seq_zero] at he
    split_ifs at he with h1 h2
    · exact Or.inl he
    · rcases mem_store_outcome _ _ _ _ _ he with h | h
      · exact Or.inl h
      · exact Or.inr (by rw [h])
    · exact Or.inl he
  | succ fuel' ih =>
    intro stn dice seq acc e he
    rw [find_seq_succ] at he
    split_ifs at he with h1 h2 h3 h4
    · exact Or.inl he
    · rcases mem_store_outcome _ _ _ _ _ he with h | h
      · exact Or.inl h
      · exact Or.inr (by rw [h])
    · rcases mem_store_outcome _ _ _ _ _ he with h | h
      · exact Or.inl h
      · exact Or.inr (by rw [h])
    · rcases search_dice_fold_entries player fuel' stn dice seq ih _ _ _ he with
        h | h
      · exact Or.inl h
      · exact Or.inr (by omega)
    · rcases mem_store_outcome _ _ _ _ _ he with h | h
      · rcases search_dice_fold_entries player fuel' stn dice seq ih _ _ _ h with
          h' | h'
        · exact Or.inl h'
        · exact Or.inr (by omega)
      · exact Or.inr (by rw [h])

lemma strictly_playable_sub_filter (st : GameState) (dice_list : List ℕ)
    (player : Player) :
    ∀ d ∈ get_strictly_playable_dice st dice_list player,
      d ∈ (sorted_desc (dedup_keep_first dice_list)).filter
        (fun die => decide (get_single_moves_for_die player die st ≠ [])) := by
  intro d hd
  unfold get_strictly_playable_dice at hd
  have main2 : ∀ (ip : List ℕ) (x : ℕ),
      x ∈ (if ip = [] then ([] : List ℕ) else ip) → x ∈ ip := by
    intro ip x hx
    split_ifs at hx with h
    · cases hx
    · exact hx
  have main3 : ∀ (a b : ℕ) (ip : List ℕ) (cb : Bool) (x : ℕ),
      x ∈ (if ip = [] then ([] : List ℕ)
           else if a ≠ b then
             (if (a ⊔ b) ∈ ip ∧ ¬(a ⊓ b) ∈ ip then [a ⊔ b]
              else if ¬((a ⊔ b) ∈ ip) ∧ (a ⊓ b) ∈ ip then [a ⊓ b]
              else if (a ⊔ b) ∈ ip ∧ (a ⊓ b) ∈ ip then
                (if ¬(cb = true) ∧ (a ⊔ b) ∈ ip then [a ⊔ b] else ip)
              else [])
           else ip) → x ∈ ip := by
    intro a b ip cb x hx
    split_ifs at hx with h1 h2 h3 h4 h5 h6
    · cases hx
    · rw [List.mem_singleton] at hx
      rw [hx]
      exact h3.1
    · rw [List.mem_singleton] at hx
      rw [hx]
      exact h4.2
    · rw [List.mem_singleton] at hx
      rw [hx]
      exact h6.2
    · exact hx
    · cases hx
    · exact hx
  rcases dice_list with _ | ⟨a, rest⟩
  · simp at hd
  rcases rest with _ | ⟨b, rest2⟩
  · exact main2 _ d hd
  rcases rest2 with _ | ⟨c, rest3⟩
  · exact main3 a b _ _ d hd
  · exact main2 _ d hd

lemma strictly_playable_moves_ne (st : GameState) (dice_list : List ℕ)
    (player : Player) (d : ℕ)
    (hd : d ∈ get_strictly_playable_dice st dice_list player) :
    get_single_moves_for_die player d st ≠ [] :=
  of_decide_eq_true
    (List.mem_filter.mp (strictly_playable_sub_filter st dice_list player d hd)).2

lemma search_dice_fold_found_mono (player : Player) (fuel' : ℕ)
    (stn : GameState) (dice : List ℕ) (seq : List Move) :
    ∀ (l : List ℕ) (acc1 : SearchAcc × Bool), acc1.2 = true →
      (l.foldl (search_dice_fold player fuel' stn dice seq) acc1).2 = true := by
  intro l
  induction l with
  | nil => intro acc1 h; exact h
  | cons x xs ih =>
    intro acc1 h
    apply ih
    rw [search_dice_fold]
    split_ifs with hmv
    · rfl
    · exact h

lemma search_dice_fold_found (player : Player) (fuel' : ℕ) (stn : GameState)
    (dice : List ℕ) (seq : List Move) :
    ∀ (l : List ℕ) (acc1 : SearchAcc × Bool),
      (∃ dd ∈ l, get_single_moves_for_die player dd stn ≠ []) →
      (l.foldl (search_dice_fold player fuel' stn dice seq) acc1).2 = true := by
  intro l
  induction l with
  | nil =>
    rintro acc1 ⟨dd, hdd, -⟩
    cases hdd
  | cons x xs ih =>
    rintro acc1 ⟨dd, hdd, hne⟩
    rcases List.mem_cons.mp hdd with rfl | hdd'
    · rw [List.foldl_cons]
      apply search_dice_fold_found_mono
      rw [search_dice_fold, if_pos hne]
    · exact ih _ ⟨dd, hdd', hne⟩

lemma find_seq_root_entries (player : Player) (fuel' : ℕ) (stn : GameState)
    (dice : List ℕ) (acc : SearchAcc)
    (hdice : dice ≠ [])
    (e : BoardKey × (GameState × List Move))
    (he : e ∈ (find_sequences_recursive player (fuel' + 1) stn dice [] acc).2)
    (hallow : get_strictly_playable_dice stn dice player ≠ []) :
    e ∈ acc.2 ∨ 1 ≤ e.2.2.length := by
  have hfound : ((get_strictly_playable_dice stn dice player).foldl
      (search_dice_fold player fuel' stn dice [])
      ((((board_tuple stn, dice) :: acc.1), acc.2), false)).2 = true := by
    apply search_dice_fold_found
    rcases hl : get_strictly_playable_dice stn dice player with _ | ⟨dv, l⟩
    · exact absurd hl hallow
    · exact ⟨dv, List.mem_cons_self _ _,
        strictly_playable_moves_ne stn dice player dv (by rw [hl]; exact List.mem_cons_self _ _)⟩
  rw [find_seq_succ] at he
  split_ifs at he with h1
  · exact Or.inl he
  · rcases search_dice_fold_entries player fuel' stn dice []
      (find_seq_new_entries player fuel') _ _ _ he with h | h
    · exact Or.inl h
    · exact Or.inr (by simpa using h)

lemma sorted_asc_ne_nil (l : List ℕ) (h : l ≠ []) : sorted_asc l ≠ [] := by
  rcases l with _ | ⟨x, xs⟩
  · exact absurd rfl h
  · show insert_asc x (sorted_asc xs) ≠ []
    rcases sorted_asc xs with _ | ⟨y, ys⟩
    · simp [insert_asc]
    · rw [insert_asc]
      split_ifs <;> simp

lemma sorted_asc_pair_comm (d1 d2 : ℕ) :
    sorted_asc [d1, d2] = sorted_asc [d2, d1] := by
  show insert_asc d1 (insert_asc d2 []) = insert_asc d2 (insert_asc d1 [])
  simp only [insert_asc]
  split_ifs with h1 h2 h2 <;> simp_all <;> omega

lemma foldl_memo_mono {σ β : Type} (proj : σ → List MemoKey) (f : σ → β → σ)
    (hf : ∀ acc x k, k ∈ proj acc → k ∈ proj (f acc x)) :
    ∀ (l : List β) (acc : σ) (k : MemoKey),
      k ∈ proj acc → k ∈ proj (l.foldl f acc) := by
  intro l
  induction l with
  | nil => intro acc k h; exact h
  | cons x xs ih => intro acc k h; exact ih (f acc x) k (hf acc x k h)

lemma find_seq_memo_mono (player : Player) :
    ∀ (fuel : ℕ) (stn : GameState) (dice : List ℕ) (seq : List Move)
      (acc : SearchAcc) (k : MemoKey),
      k ∈ acc.1 → k ∈ (find_sequences_recursive player fuel stn dice seq acc).1 := by
  intro fuel
  induction fuel with
  | zero =>
    intro stn dice seq acc k hk
    rw [find_seq_zero]
    split_ifs with h1 h2
    · exact hk
    · exact List.mem_cons_of_mem _ hk
    · exact List.mem_cons_of_mem _ hk
  | succ fuel' ih =>
    intro stn dice seq acc k hk
    have hstep : ∀ (acc1 : SearchAcc × Bool) (die_val : ℕ) (k2 : MemoKey),
        k2 ∈ acc1.1.1 →
        k2 ∈ ((search_dice_fold player fuel' stn dice seq) acc1 die_val).1.1 := by
      intro acc1 die_val k2 hk2
      rw [search_dice_fold]
      split_ifs with hmv
      · refine foldl_memo_mono (fun a : SearchAcc => a.1) _ ?_ _ acc1.1 k2 hk2
        intro acc2 mv k3 hk3
        rw [search_moves_fold]
        rcases consumed_die_for stn dice player die_val mv.1 mv.2 with _ | cd
        · exact hk3
        · dsimp only
          split_ifs with hok
          · exact ih _ _ _ _ k3 hk3
          · exact hk3
      · exact hk2
    rw [find_seq_succ]
    split_ifs with h1 h2 h3 h4
    · exact hk
    · exact List.mem_cons_of_mem _ hk
    · exact List.mem_cons_of_mem _ hk
    · exact foldl_memo_mono (fun a : SearchAcc × Bool => a.1.1) _ hstep _ _ k
        (List.mem_cons_of_mem _ hk)
    · exact foldl_memo_mono (fun a : SearchAcc × Bool => a.1.1) _ hstep _ _ k
        (List.mem_cons_of_mem _ hk)

lemma find_seq_memo_key (player : Player) (fuel : ℕ) (stn : GameState)
    (dice : List ℕ) (seq : List Move) (acc : SearchAcc) :
    ((board_tuple stn, dice) : MemoKey) ∈
      (find_sequences_recursive player fuel stn dice seq acc).1 := by
  rcases fuel with _ | fuel'
  · rw [find_seq_zero]
    split_ifs with h1 h2
    · exact h1
    · exact List.mem_cons_self _ _
    · exact List.mem_cons_self _ _
  · have hstep : ∀ (acc1 : SearchAcc × Bool) (die_val : ℕ) (k2 : MemoKey),
        k2 ∈ acc1.1.1 →
        k2 ∈ ((search_dice_fold player fuel' stn dice seq) acc1 die_val).1.1 := by
      intro acc1 die_val k2 hk2
      rw [search_dice_fold]
      split_ifs with hmv
      · refine foldl_memo_mono (fun a : SearchAcc => a.1) _ ?_ _ acc1.1 k2 hk2
        intro acc2 mv k3 hk3
        rw [search_moves_fold]
        rcases consumed_die_for stn dice player die_val mv.1 mv.2 with _ | cd
        · exact hk3
        · dsimp only
          split_ifs with hok
          · exact find_seq_memo_mono player fuel' _ _ _ _ k3 hk3
          · exact hk3
      · exact hk2
    rw [find_seq_succ]
    split_ifs with h1 h2 h3 h4
    · exact h1
    · exact List.mem_cons_self _ _
    · exact List.mem_cons_self _ _
    · exact foldl_memo_mono (fun a : SearchAcc × Bool => a.1.1) _ hstep _ _ _
        (List.mem_cons_self _ _)
    · exact foldl_memo_mono (fun a : SearchAcc × Bool => a.1.1) _ hstep _ _ _
        (List.mem_cons_self _ _)

lemma collected_outcomes_eq_perm1 (st : GameState) (roll : List ℕ)
    (player : Player) (hroll : roll ≠ []) :
    collected_outcomes st roll player =
      find_sequences_recursive player (roll.length + 1)
        { st with dice := roll } (sorted_asc roll) [] ([], []) := by
  rcases roll with _ | ⟨a, t⟩
  · exact absurd rfl hroll
  rcases t with _ | ⟨b, t2⟩
  · rfl
  rcases t2 with _ | ⟨c, t3⟩
  · by_cases hab : a = b
    · subst hab
      unfold collected_outcomes
      simp [List.foldl]
    · have hkey : ((board_tuple { st with dice := [b, a] },
          sorted_asc [b, a]) : MemoKey) =
          (board_tuple { st with dice := [a, b] }, sorted_asc [a, b]) := by
        rw [sorted_asc_pair_comm b a]
        simp [board_tuple]
      have h : collected_outcomes st [a, b] player =
          find_sequences_recursive player ([b, a].length + 1)
            { st with dice := [b, a] } (sorted_asc [b, a]) []
            (find_sequences_recursive player ([a, b].length + 1)
              { st with dice := [a, b] } (sorted_asc [a, b]) [] ([], [])) := by
        unfold collected_outcomes
        simp [List.foldl, hab]
      have hmem : ((board_tuple { st with dice := [b, a] },
          sorted_asc [b, a]) : MemoKey) ∈
          (find_sequences_recursive player ([a, b].length + 1)
            { st with dice := [a, b] } (sorted_asc [a, b]) [] ([], [])).1 := by
        rw [hkey]
        exact find_seq_memo_key player ([a, b].length + 1)
          { st with dice := [a, b] } (sorted_asc [a, b]) [] ([], [])
      rw [h, find_seq_succ, if_pos hmem]
  · have h : collected_outcomes st (a :: b :: c :: t3) player =
        find_sequences_recursive player ((a :: b :: c :: t3).length + 1)
          { st with dice := a :: b :: c :: t3 }
          (sorted_asc (a :: b :: c :: t3)) [] ([], []) := by
      unfold collected_outcomes
      split_ifs <;> simp [List.foldl]
    rw [h]

lemma collected_outcomes_no_play (st : GameState) (roll : List ℕ)
    (player : Player) (hroll : roll ≠ [])
    (hallow : get_strictly_playable_dice { st with dice := roll }
      (sorted_asc roll) player = []) :
    collected_outcomes st roll player =
      ([(board_tuple { st with dice := roll }, sorted_asc roll)],
       [(board_tuple { st with dice := roll },
         ({ st with dice := roll }, ([] : List Move)))]) := by
  rw [collected_outcomes_eq_perm1 st roll player hroll, find_seq_succ,
    if_neg (by simp), if_neg (sorted_asc_ne_nil roll hroll), if_pos hallow]
  rfl

lemma collected_entries_ge_one (st : GameState) (roll : List ℕ)
    (player : Player) (hroll : roll ≠ [])
    (hallow : get_strictly_playable_dice { st with dice := roll }
      (sorted_asc roll) player ≠ [])
    (e : BoardKey × (GameState × List Move))
    (he : e ∈ (collected_outcomes st roll player).2) :
    1 ≤ e.2.2.length := by
  rw [collected_outcomes_eq_perm1 st roll player hroll] at he
  rcases find_seq_root_entries player roll.length { st with dice := roll }
      (sorted_asc roll) ([], []) (sorted_asc_ne_nil roll hroll) e he hallow with
    h | h
  · cases h
  · exact h

lemma generate_nil_dice (st : GameState) (player : Player) :
    generate_possible_next_states_with_sequences st [] player = [(st, [])] :=
  rfl

lemma generate_nil_outs (st : GameState) (roll : List ℕ) (player : Player)
    (hroll : roll ≠ [])
    (hout : (collected_outcomes st roll player).2 = []) :
    generate_possible_next_states_with_sequences st roll player =
      [(st, [])] := by
  unfold generate_possible_next_states_with_sequences
  rw [if_neg hroll, hout]
  rfl

lemma max_dice_filter_cons (st : GameState)
    (o : BoardKey × (GameState × List Move)) (rest : Outcomes) :
    max_dice_filter st (o :: rest) =
      (if (((o :: rest).map (fun oc => oc.2.2.length)).foldl max 0) = 0 then
        [o.2]
      else
        match ((o :: rest).filter (fun oc =>
            oc.2.2.length = ((o :: rest).map
              (fun oc => oc.2.2.length)).foldl max 0)).map
            (fun oc => oc.2) with
        | [] => (o :: rest).map (fun oc => oc.2)
        | r :: rs => r :: rs) := rfl

lemma generate_cons_zero (st : GameState) (roll : List ℕ) (player : Player)
    (hroll : roll ≠ []) (o : BoardKey × (GameState × List Move))
    (rest : Outcomes)
    (hout : (collected_outcomes st roll player).2 = o :: rest)
    (hzero : (((o :: rest).map (fun oc => oc.2.2.length)).foldl max 0) = 0) :
    generate_possible_next_states_with_sequences st roll player = [o.2] := by
  unfold generate_possible_next_states_with_sequences
  rw [if_neg hroll, hout, max_dice_filter_cons, if_pos hzero]

lemma generate_cons_filter (st : GameState) (roll : List ℕ) (player : Player)
    (hroll : roll ≠ []) (o : BoardKey × (GameState × List Move))
    (rest : Outcomes)
    (hout : (collected_outcomes st roll player).2 = o :: rest)
    (hzero : ¬ (((o :: rest).map (fun oc => oc.2.2.length)).foldl max 0) = 0)
    (r : GameState × List Move) (rs : List (GameState × List Move))
    (hfm : ((o :: rest).filter (fun oc =>
        oc.2.2.length = ((o :: rest).map
          (fun oc => oc.2.2.length)).foldl max 0)).map
        (fun oc => oc.2) = r :: rs) :
    generate_possible_next_states_with_sequences st roll player = r :: rs := by
  unfold generate_possible_next_states_with_sequences
  rw [if_neg hroll, hout, max_dice_filter_cons, if_neg hzero, hfm]

lemma collected_max_len_eq (st : GameState) (roll : List ℕ) (player : Player)
    (hroll : roll ≠ []) :
    collected_max_len st roll player =
      (((collected_outcomes st roll player).2).map
        (fun o => o.2.2.length)).foldl max 0 := by
  unfold collected_max_len
  rw [if_neg hroll]

/-- C1: every pair returned by `generate_possible_next_states_with_sequences`
has a sequence whose length equals the maximum sequence length over all
collected terminal outcomes for that roll; and when that maximum is 0 (no
sequence plays any die), a single no-op outcome is returned whose state
agrees with the input state on board, bars, offs, winner, current player and
cached moves, paired with the empty sequence. -/
theorem c1_max_dice_filter (st : GameState) (roll : List ℕ) (player : Player) :
    (∀ p ∈ generate_possible_next_states_with_sequences st roll player,
      p.2.length = collected_max_len st roll player) ∧
    (collected_max_len st roll player = 0 →
      ∃ s : GameState,
        generate_possible_next_states_with_sequences st roll player =
          [(s, [])] ∧
        s.board = st.board ∧ s.white_bar = st.white_bar ∧
        s.black_bar = st.black_bar ∧ s.white_off = st.white_off ∧
        s.black_off = st.black_off ∧ s.winner = st.winner ∧
        s.current_player = st.current_player ∧
        s.available_moves = st.available_moves) := by
  constructor
  · intro p hp
    by_cases hroll : roll = []
    · subst hroll
      rw [generate_nil_dice] at hp
      rw [List.mem_singleton] at hp
      subst hp
      rfl
    · rcases hout : (collected_outcomes st roll player).2 with _ | ⟨o, rest⟩
      · rw [generate_nil_outs st roll player hroll hout] at hp
        rw [List.mem_singleton] at hp
        subst hp
        rw [collected_max_len_eq st roll player hroll, hout]
        rfl
      · rw [collected_max_len_eq st roll player hroll, hout]
        by_cases hzero :
            (((o :: rest).map (fun oc => oc.2.2.length)).foldl max 0) = 0
        · rw [generate_cons_zero st roll player hroll o rest hout hzero] at hp
          rw [List.mem_singleton] at hp
          subst hp
          have h1 : o.2.2.length ≤
              ((o :: rest).map (fun oc => oc.2.2.length)).foldl max 0 :=
            le_foldl_max _ 0 _
              (List.mem_map_of_mem _ (List.mem_cons_self o rest))
          omega
        · have hmem : ((o :: rest).map (fun oc => oc.2.2.length)).foldl max 0 ∈
              (o :: rest).map (fun oc => oc.2.2.length) := by
            rcases foldl_max_mem ((o :: rest).map (fun oc => oc.2.2.length)) 0
              with h | h
            · exact absurd h hzero
            · exact h
          obtain ⟨oc0, hoc0, hlen0⟩ := List.mem_map.mp hmem
          have hfil : oc0 ∈ (o :: rest).filter (fun oc =>
              oc.2.2.length =
                ((o :: rest).map (fun oc => oc.2.2.length)).foldl max 0) :=
            List.mem_filter.mpr ⟨hoc0, by rw [decide_eq_true_eq]; exact hlen0⟩
          rcases hfm : ((o :: rest).filter (fun oc =>
              oc.2.2.length =
                ((o :: rest).map (fun oc => oc.2.2.length)).foldl max 0)).map
              (fun oc => oc.2) with _ | ⟨r, rs⟩
          · rw [List.map_eq_nil_iff] at hfm
            rw [hfm] at hfil
            cases hfil
          · rw [generate_cons_filter st roll player hroll o rest hout hzero
              r rs hfm] at hp
            rw [← hfm] at hp
            obtain ⟨oc, hoc, hpe⟩ := List.mem_map.mp hp
            have hlen : oc.2.2.length =
                ((o :: rest).map (fun oc => oc.2.2.length)).foldl max 0 := by
              have h2 := (List.mem_filter.mp hoc).2
              rw [decide_eq_true_eq] at h2
              exact h2
            rw [← hpe]
            exact hlen
  · intro hzero0
    by_cases hroll : roll = []
    · subst hroll
      exact ⟨st, generate_nil_dice st player, rfl, rfl, rfl, rfl, rfl, rfl,
        rfl, rfl⟩
    · rcases hout : (collected_outcomes st roll player).2 with _ | ⟨o, rest⟩
      · exact ⟨st, generate_nil_outs st roll player hroll hout, rfl, rfl, rfl,
          rfl, rfl, rfl, rfl, rfl⟩
      · rw [collected_max_len_eq st roll player hroll, hout] at hzero0
        by_cases hallow : get_strictly_playable_dice
            { st with dice := roll } (sorted_asc roll) player = []
        · have hcoll := collected_outcomes_no_play st roll player hroll hallow
          have h2 : ([(board_tuple { st with dice := roll },
              ({ st with dice := roll }, ([] : List Move)))] : Outcomes) =
              o :: rest := by
            rw [hcoll] at hout
            exact hout
          injection h2 with h3 h4
          refine ⟨{ st with dice := roll }, ?_, rfl, rfl, rfl, rfl, rfl, rfl,
            rfl, rfl⟩
          rw [generate_cons_zero st roll player hroll o rest hout hzero0, ← h3]
        · exfalso
          have h1 := collected_entries_ge_one st roll player hroll hallow o
            (by rw [hout]; exact List.mem_cons_self o rest)
          have h2 : o.2.2.length ≤
              ((o :: rest).map (fun oc => oc.2.2.length)).foldl max 0 :=
            le_foldl_max _ 0 _
              (List.mem_map_of_mem _ (List.mem_cons_self o rest))
          omega

/-- A state where white is on the bar and both entry points for a (3,1)
roll are blocked. -/
def c1_example_state : GameState :=
  { initial_state with
    white_bar := 1
    board := [-2, -2, -2, 0, 0, 0, 0, 0, 0, 0, 0, 0,
              0, 0, 0, 0, 0, 0, 0, 0, 0, 0, 0, 2] }

/-- Witness for C1 at a concrete input: white is on the bar against a
closed 3-point wall, roll (3,1) plays nothing, and the enumerator returns a
single no-op outcome. -/
theorem c1_max_dice_filter_witness :
    (({ c1_example_state with dice := [3, 1] }, ([] : List Move)).2.length =
      collected_max_len c1_example_state [3, 1] Player.w) ∧
    collected_max_len c1_example_state [3, 1] Player.w = 0 ∧
    (generate_possible_next_states_with_sequences c1_example_state [3, 1]
        Player.w).length = 1 := by
  refine ⟨?_, rfl, ?_⟩
  · exact (c1_max_dice_filter c1_example_state [3, 1] Player.w).1
      ({ c1_example_state with dice := [3, 1] }, []) (by decide)
  · obtain ⟨s, hgen, -⟩ :=
      (c1_max_dice_filter c1_example_state [3, 1] Player.w).2 rfl
    rw [hgen]
    rfl

/-- Exact rational values with executable arithmetic: a normalized
numerator/denominator pair.  These stand in for the finite Python floats
of the scoring code. -/
structure Frac where
  num : ℤ
  den : ℕ
  deriving DecidableEq, Repr

/-- Normalizing smart constructor for `Frac`. -/
def mkFrac (n : ℤ) (d : ℕ) : Frac :=
  if d = 0 then ⟨0, 1⟩
  else
    let g := n.natAbs.gcd d
    ⟨n / (g : ℤ), d / g⟩

def Frac.ofInt (n : ℤ) : Frac := ⟨n, 1⟩

def fadd (a b : Frac) : Frac :=
  mkFrac (a.num * (b.den : ℤ) + b.num * (a.den : ℤ)) (a.den * b.den)

def fmul (a b : Frac) : Frac := mkFrac (a.num * b.num) (a.den * b.den)

def fneg (a : Frac) : Frac := ⟨-a.num, a.den⟩

/-- Division of a `Frac` by a positive integer. -/
def fdivNat (a : Frac) (n : ℕ) : Frac := mkFrac a.num (a.den * n)

/-- Strict comparison by cross-multiplication (denominators are
positive). -/
def fblt (a b : Frac) : Bool := decide (a.num * (b.den : ℤ) < b.num * (a.den : ℤ))

def fble (a b : Frac) : Bool := decide (a.num * (b.den : ℤ) ≤ b.num * (a.den : ℤ))

/-- Left-fold sum starting from `0.0`, as Python `+=` accumulation. -/
def fsum (l : List Frac) : Frac := l.foldl fadd ⟨0, 1⟩

/-- Python float values that the minimax computation can take: exact
rationals stand in for finite floats, with the infinities and `nan`
(`inf + -inf`) represented explicitly. -/
inductive Score
  | nan
  | ninf
  | fin (q : Frac)
  | pinf
  deriving DecidableEq, Repr

/-- A well-formed score: not `nan`, and a finite value has a positive
denominator (every `Frac` built by `mkFrac` does). -/
def Score.WF : Score → Prop
  | .nan => False
  | .ninf => True
  | .fin q => 0 < q.den
  | .pinf => True

instance : ∀ s : Score, Decidable s.WF
  | .nan => instDecidableFalse
  | .ninf => instDecidableTrue
  | .fin _ => Nat.decLt _ _
  | .pinf => instDecidableTrue

/-- Python `<` on floats: `nan` is incomparable with everything. -/
def pyLt : Score → Score → Bool
  | .nan, _ => false
  | _, .nan => false
  | .ninf, .ninf => false
  | .ninf, .fin _ => true
  | .ninf, .pinf => true
  | .fin _, .ninf => false
  | .fin p, .fin q => fblt p q
  | .fin _, .pinf => true
  | .pinf, _ => false

/-- Python `<=` on floats: `nan` is incomparable with everything. -/
def pyLe : Score → Score → Bool
  | .nan, _ => false
  | _, .nan => false
  | .ninf, _ => true
  | .fin _, .ninf => false
  | .fin p, .fin q => fble p q
  | .fin _, .pinf => true
  | .pinf, .pinf => true
  | .pinf, _ => false

/-- Python `max(a, b)`: returns `b` exactly when `a < b`, so the first
argument wins ties and `nan` handling follows `pyLt`. -/
def pyMax (a b : Score) : Score := if pyLt a b then b else a

/-- Python `min(a, b)`: returns `b` exactly when `b < a`. -/
def pyMin (a b : Score) : Score := if pyLt b a then b else a

/-- Python float addition on scores; `inf + -inf = nan`. -/
def pyAdd : Score → Score → Score
  | .nan, _ => .nan
  | _, .nan => .nan
  | .pinf, .ninf => .nan
  | .ninf, .pinf => .nan
  | .pinf, _ => .pinf
  | _, .pinf => .pinf
  | .ninf, _ => .ninf
  | _, .ninf => .ninf
  | .fin p, .fin q => .fin (fadd p q)

/-- Python float division by a positive integer. -/
def pyDivNat (a : Score) (n : ℕ) : Score :=
  match a with
  | .nan => .nan
  | .pinf => .pinf
  | .ninf => .ninf
  | .fin q => .fin (fdivNat q n)

def MAX_DEPTH : ℕ := 3

def NUM_DICE_SAMPLES : ℕ := 14

def OPENING_EXIT_TOTAL_PIP_THRESHOLD : ℤ := 280

inductive GamePhase
  | OPENING
  | MIDGAME
  | ENDGAME
  deriving DecidableEq, Repr

/-- `determine_game_phase` (the `current_phase` attribute it also sets is
never read by the core logic). -/
def determine_game_phase (st : GameState) : GamePhase :=
  let w_home := check_all_pieces_home .w st
  let b_home := check_all_pieces_home .b st
  if st.white_off > 0 ∨ st.black_off > 0 ∨ (w_home = true ∧ b_home = true) then
    .ENDGAME
  else
    let w_pip := calculate_pip st .w
    let b_pip := calculate_pip st .b
    if w_pip + b_pip > OPENING_EXIT_TOTAL_PIP_THRESHOLD then .OPENING
    else .MIDGAME

/-- `HeuristicWeights`, with the float weights as exact fractions. -/
structure HeuristicWeights where
  PIP_SCORE_FACTOR : Frac
  OFF_SCORE_FACTOR : Frac
  HIT_BONUS : Frac
  BAR_PENALTY : Frac
  POINT_BONUS : Frac
  HOME_BOARD_POINT_BONUS : Frac
  INNER_HOME_POINT_BONUS : Frac
  ANCHOR_BONUS : Frac
  PRIME_BASE_BONUS : Frac
  DIRECT_SHOT_PENALTY_FACTOR : Frac
  BLOT_PENALTY_REDUCTION_IF_OPP_ON_BAR : Frac
  AGGRESSION_THRESHOLD : Frac
  MIDGAME_HOME_PRISON_BONUS : Frac
  FAR_BEHIND_BACK_CHECKER_PENALTY_FACTOR : Frac
  TRAPPED_CHECKER_BONUS : Frac
  deriving DecidableEq, Repr

def OPENING_WEIGHTS : HeuristicWeights :=
  { PIP_SCORE_FACTOR := mkFrac 8 10, OFF_SCORE_FACTOR := mkFrac 5 1,
    HIT_BONUS := mkFrac 35 1, BAR_PENALTY := mkFrac (-25) 1,
    POINT_BONUS := mkFrac 3 1, HOME_BOARD_POINT_BONUS := mkFrac 2 1,
    INNER_HOME_POINT_BONUS := mkFrac 1 1, ANCHOR_BONUS := mkFrac 8 1,
    PRIME_BASE_BONUS := mkFrac 5 1,
    DIRECT_SHOT_PENALTY_FACTOR := mkFrac (-1) 1,
    BLOT_PENALTY_REDUCTION_IF_OPP_ON_BAR := mkFrac 6 10,
    AGGRESSION_THRESHOLD := mkFrac 12 1,
    MIDGAME_HOME_PRISON_BONUS := mkFrac 15 1,
    FAR_BEHIND_BACK_CHECKER_PENALTY_FACTOR := mkFrac 5 10,
    TRAPPED_CHECKER_BONUS := mkFrac 6 1 }

def MIDGAME_WEIGHTS : HeuristicWeights :=
  { PIP_SCORE_FACTOR := mkFrac 12 10, OFF_SCORE_FACTOR := mkFrac 15 1,
    HIT_BONUS := mkFrac 40 1, BAR_PENALTY := mkFrac (-25) 1,
    POINT_BONUS := mkFrac 3 1, HOME_BOARD_POINT_BONUS := mkFrac 5 1,
    INNER_HOME_POINT_BONUS := mkFrac 3 1, ANCHOR_BONUS := mkFrac 3 1,
    PRIME_BASE_BONUS := mkFrac 5 1,
    DIRECT_SHOT_PENALTY_FACTOR := mkFrac (-15) 10,
    BLOT_PENALTY_REDUCTION_IF_OPP_ON_BAR := mkFrac 5 10,
    AGGRESSION_THRESHOLD := mkFrac 15 1,
    MIDGAME_HOME_PRISON_BONUS := mkFrac 20 1,
    FAR_BEHIND_BACK_CHECKER_PENALTY_FACTOR := mkFrac 7 10,
    TRAPPED_CHECKER_BONUS := mkFrac 8 1 }

def ENDGAME_WEIGHTS : HeuristicWeights :=
  { PIP_SCORE_FACTOR := mkFrac 3 1, OFF_SCORE_FACTOR := mkFrac 30 1,
    HIT_BONUS := mkFrac 50 1, BAR_PENALTY := mkFrac (-50) 1,
    POINT_BONUS := mkFrac 5 10, HOME_BOARD_POINT_BONUS := mkFrac 5 10,
    INNER_HOME_POINT_BONUS := mkFrac 2 10, ANCHOR_BONUS := mkFrac 1 1,
    PRIME_BASE_BONUS := mkFrac 1 1,
    DIRECT_SHOT_PENALTY_FACTOR := mkFrac (-25) 10,
    BLOT_PENALTY_REDUCTION_IF_OPP_ON_BAR := mkFrac 2 10,
    AGGRESSION_THRESHOLD := mkFrac 5 1,
    MIDGAME_HOME_PRISON_BONUS := mkFrac 0 1,
    FAR_BEHIND_BACK_CHECKER_PENALTY_FACTOR := mkFrac 0 1,
    TRAPPED_CHECKER_BONUS := mkFrac 2 1 }

/-- `PHASE_WEIGHTS` lookup. -/
def PHASE_WEIGHTS : GamePhase → HeuristicWeights
  | .OPENING => OPENING_WEIGHTS
  | .MIDGAME => MIDGAME_WEIGHTS
  | .ENDGAME => ENDGAME_WEIGHTS

/-- `evaluate_position_heuristic`, translated statement by statement; the
dead `max_prime_len` bookkeeping of the source is omitted since it never
feeds into the returned total. -/
def evaluate_position_heuristic (game_state : GameState)
    (player_to_evaluate : Player) (weights : HeuristicWeights) : Frac :=
  let psign : ℤ := p_sign player_to_evaluate
  let o_sign : ℤ := -psign
  let board := game_state.board
  let p_pip := calculate_pip game_state player_to_evaluate
  let o_pip := calculate_pip game_state player_to_evaluate.opponent
  let pip_score := fmul (Frac.ofInt (o_pip - p_pip)) weights.PIP_SCORE_FACTOR
  let p_off := if player_to_evaluate = .w then game_state.white_off
    else game_state.black_off
  let o_off := if player_to_evaluate = .w then game_state.black_off
    else game_state.white_off
  let off_score := fmul (Frac.ofInt (p_off - o_off)) weights.OFF_SCORE_FACTOR
  let p_bar := if player_to_evaluate = .w then game_state.white_bar
    else game_state.black_bar
  let o_bar := if player_to_evaluate = .w then game_state.black_bar
    else game_state.white_bar
  let bar_penalty := fmul (Frac.ofInt p_bar) weights.BAR_PENALTY
  let hit_bonus := fmul (Frac.ofInt o_bar) weights.HIT_BONUS
  let made : ℕ → Bool := fun i => decide (board.getD i 0 * psign ≥ 2)
  let made_count := ((List.range 24).filter made).length
  let point_bonus_total :=
    fmul (Frac.ofInt made_count) weights.POINT_BONUS
  let is_home : ℕ → Bool := fun i =>
    decide ((player_to_evaluate = .w ∧ 19 ≤ i + 1 ∧ i + 1 ≤ 24) ∨
      (player_to_evaluate = .b ∧ 1 ≤ i + 1 ∧ i + 1 ≤ 6))
  let home_point_bonus_total :=
    fmul (Frac.ofInt ((((List.range 24).filter made).filter is_home).length))
      weights.HOME_BOARD_POINT_BONUS
  let is_inner_home : ℕ → Bool := fun i =>
    decide ((player_to_evaluate = .w ∧ 22 ≤ i + 1 ∧ i + 1 ≤ 24) ∨
      (player_to_evaluate = .b ∧ 1 ≤ i + 1 ∧ i + 1 ≤ 3))
  let inner_home_bonus_total :=
    fmul (Frac.ofInt
        ((((List.range 24).filter made).filter is_inner_home).length))
      weights.INNER_HOME_POINT_BONUS
  let is_anchor : ℕ → Bool := fun i =>
    decide ((player_to_evaluate = .w ∧ 1 ≤ i + 1 ∧ i + 1 ≤ 6) ∨
      (player_to_evaluate = .b ∧ 19 ≤ i + 1 ∧ i + 1 ≤ 24))
  let anchor_bonus_total :=
    fmul (Frac.ofInt ((((List.range 24).filter made).filter is_anchor).length))
      weights.ANCHOR_BONUS
  let player_blot_positions :=
    (List.range 24).filter (fun i => decide (board.getD i 0 * psign = 1))
  let direct_shots_for : ℕ → ℤ := fun blot_idx =>
    let from_board := ((List.range' 1 6).map (fun shot_dist =>
      let shooter : ℤ := (blot_idx : ℤ) - (shot_dist : ℤ) * o_sign
      if 0 ≤ shooter ∧ shooter < 24 ∧ board.getD shooter.toNat 0 * o_sign > 0
      then |board.getD shooter.toNat 0| else 0)).sum
    if o_bar > 0 then
      let entry_die_needed : ℕ :=
        if player_to_evaluate = .b then blot_idx + 1 else 24 - blot_idx
      if 1 ≤ entry_die_needed ∧ entry_die_needed ≤ 6 then
        let opp_entry_point_idx : ℕ :=
          if player_to_evaluate = .b then entry_die_needed - 1
          else 24 - entry_die_needed
        if board.getD opp_entry_point_idx 0 * psign < 2 then
          from_board + o_bar
        else from_board
      else from_board
    else from_board
  let blot_penalty_total :=
    if player_blot_positions = [] then Frac.ofInt 0
    else
      let s := fsum (player_blot_positions.map (fun b =>
        fmul (Frac.ofInt (direct_shots_for b))
          weights.DIRECT_SHOT_PENALTY_FACTOR))
      if o_bar > 0 then fmul s weights.BLOT_PENALTY_REDUCTION_IF_OPP_ON_BAR
      else s
  let prime_scan := (List.range 24).foldl
    (fun (acc : List (ℕ × ℕ × ℕ) × ℕ × Frac) i =>
      if made i then (acc.1, acc.2.1 + 1, acc.2.2)
      else if acc.2.1 ≥ 4 then
        (acc.1 ++ [(i - acc.2.1, i - 1, acc.2.1)], 0,
          fadd acc.2.2 (fmul (Frac.ofInt ((acc.2.1 : ℤ) - 3))
            weights.PRIME_BASE_BONUS))
      else (acc.1, 0, acc.2.2)) ([], 0, Frac.ofInt 0)
  let prime_segments :=
    if prime_scan.2.1 ≥ 4 then
      prime_scan.1 ++ [(24 - prime_scan.2.1, 23, prime_scan.2.1)]
    else prime_scan.1
  let prime_bonus_total :=
    if prime_scan.2.1 ≥ 4 then
      fadd prime_scan.2.2 (fmul (Frac.ofInt ((prime_scan.2.1 : ℤ) - 3))
        weights.PRIME_BASE_BONUS)
    else prime_scan.2.2
  let trapped_checker_bonus_total :=
    if weights.TRAPPED_CHECKER_BONUS.num ≠ 0 then
      fsum ((prime_segments.filter (fun seg => decide (seg.2.2 ≥ 5))).map
        (fun seg =>
          let zone := if player_to_evaluate = .w then List.range seg.1
            else List.range' (seg.2.1 + 1) (24 - (seg.2.1 + 1))
          let trapped_count := (zone.map (fun t =>
            if board.getD t 0 * o_sign > 0 then |board.getD t 0| else 0)).sum
          fmul (Frac.ofInt trapped_count) weights.TRAPPED_CHECKER_BONUS))
    else Frac.ofInt 0
  let home_range := if player_to_evaluate = .w then List.range' 18 6
    else List.range 6
  let home_points_made_count := (home_range.filter made).length
  let midgame_prison_bonus :=
    if weights.MIDGAME_HOME_PRISON_BONUS.num ≠ 0 ∧
        home_points_made_count ≥ 3 ∧ o_bar > 0 then
      fmul weights.MIDGAME_HOME_PRISON_BONUS (Frac.ofInt o_bar)
    else Frac.ofInt 0
  let is_far_behind := p_pip > 0 ∧ o_pip > 0 ∧
    fble (fmul (mkFrac 15 10) (Frac.ofInt o_pip)) (Frac.ofInt p_pip) = true
  let back_checker_penalty :=
    if weights.FAR_BEHIND_BACK_CHECKER_PENALTY_FACTOR.num ≠ 0 ∧
        is_far_behind then
      let back_zone := if player_to_evaluate = .w then List.range' 1 6
        else List.range' 19 6
      let back_checker_pip_sum := (back_zone.map (fun pos =>
        let count := game_state.board.getD (pos - 1) 0
        if count * psign > 0 then
          (if player_to_evaluate = .w then (25 - (pos : ℤ)) else (pos : ℤ)) *
            |count|
        else 0)).sum
      fmul (fmul (Frac.ofInt back_checker_pip_sum)
        weights.FAR_BEHIND_BACK_CHECKER_PENALTY_FACTOR) (Frac.ofInt (-1))
    else Frac.ofInt 0
  fsum [pip_score, off_score, bar_penalty, hit_bonus, point_bonus_total,
    home_point_bonus_total, inner_home_bonus_total, anchor_bonus_total,
    prime_bonus_total, blot_penalty_total, midgame_prison_bonus,
    trapped_checker_bonus_total, back_checker_penalty]

/-- One sampled roll at a maximizing chance node of
`get_minimax_score_sampled` (the body of the `for d1, d2 in
sampled_dice_rolls` loop): the accumulator carries the running score sum,
the current `alpha` bound and the random counter.  The Python `break` on
`beta <= alpha` is modelled with a flag that makes the remaining branch
iterations of the sample no-ops, exactly as `break` skips them. -/
def max_sample_step
    (recur : GameState → Player → Player → Score → Score → ℕ → Score × ℕ)
    (game_state : GameState) (current_turn_player maximizing_player : Player)
    (beta : Score) (acc : Score × Score × ℕ) (dd : ℕ × ℕ) :
    Score × Score × ℕ :=
  let dice_for_turn :=
    if dd.1 = dd.2 then [dd.1, dd.2, dd.1, dd.2] else [dd.1, dd.2]
  let outs := generate_possible_next_states_with_sequences
    game_state dice_for_turn current_turn_player
  let no_move := match outs with
    | [] => true
    | [(_, seq)] => seq.isEmpty
    | _ => false
  if no_move then
    let r := recur game_state current_turn_player.opponent maximizing_player
      acc.2.1 beta acc.2.2
    (pyAdd acc.1 r.1, acc.2.1, r.2)
  else
    let br := outs.foldl (fun (bacc : Score × Score × ℕ × Bool) p =>
      if bacc.2.2.2 then bacc
      else
        let r := recur p.1 current_turn_player.opponent maximizing_player
          bacc.2.1 beta bacc.2.2.1
        let best := pyMax bacc.1 r.1
        let alpha2 := pyMax bacc.2.1 best
        (best, alpha2, r.2, pyLe beta alpha2))
      (Score.ninf, acc.2.1, acc.2.2, false)
    (pyAdd acc.1 br.1, br.2.1, br.2.2.1)

/-- One sampled roll at a minimizing chance node: as `max_sample_step`
with the roles of the bounds swapped (`beta` is carried, `alpha` is
fixed). -/
def min_sample_step
    (recur : GameState → Player → Player → Score → Score → ℕ → Score × ℕ)
    (game_state : GameState) (current_turn_player maximizing_player : Player)
    (alpha : Score) (acc : Score × Score × ℕ) (dd : ℕ × ℕ) :
    Score × Score × ℕ :=
  let dice_for_turn :=
    if dd.1 = dd.2 then [dd.1, dd.2, dd.1, dd.2] else [dd.1, dd.2]
  let outs := generate_possible_next_states_with_sequences
    game_state dice_for_turn current_turn_player
  let no_move := match outs with
    | [] => true
    | [(_, seq)] => seq.isEmpty
    | _ => false
  if no_move then
    let r := recur game_state current_turn_player.opponent maximizing_player
      alpha acc.2.1 acc.2.2
    (pyAdd acc.1 r.1, acc.2.1, r.2)
  else
    let br := outs.foldl (fun (bacc : Score × Score × ℕ × Bool) p =>
      if bacc.2.2.2 then bacc
      else
        let r := recur p.1 current_turn_player.opponent maximizing_player
          alpha bacc.2.1 bacc.2.2.1
        let worst := pyMin bacc.1 r.1
        let beta2 := pyMin bacc.2.1 worst
        (worst, beta2, r.2, pyLe beta2 alpha))
      (Score.pinf, acc.2.1, acc.2.2, false)
    (pyAdd acc.1 br.1, br.2.1, br.2.2.1)

/-- The chance-node body of `get_minimax_score_sampled` (the code below
the terminal checks), with the depth-decremented recursive call passed in
as `recur`.  The global random generator is modelled as a stream `rand`
of dice pairs together with an explicit call counter `ctr`;
`_get_random_dice_sample` reads the next `NUM_DICE_SAMPLES` pairs.
`alpha` (at a maximizing node) and `beta` (at a minimizing node) live in
the fold accumulator, which persists across the iteration over the
sampled rolls. -/
def minimax_chance_node
    (recur : GameState → Player → Player → Score → Score → ℕ → Score × ℕ)
    (rand : ℕ → ℕ × ℕ) (game_state : GameState)
    (current_turn_player maximizing_player : Player)
    (alpha beta : Score) (ctr : ℕ) : Score × ℕ :=
  let samples := (List.range NUM_DICE_SAMPLES).map (fun i => rand (ctr + i))
  let ctr1 := ctr + NUM_DICE_SAMPLES
  if current_turn_player = maximizing_player then
    let res := samples.foldl (max_sample_step recur game_state
      current_turn_player maximizing_player beta) (Score.fin (Frac.ofInt 0), alpha, ctr1)
    (pyDivNat res.1 NUM_DICE_SAMPLES, res.2.2)
  else
    let res := samples.foldl (min_sample_step recur game_state
      current_turn_player maximizing_player alpha) (Score.fin (Frac.ofInt 0), beta, ctr1)
    (pyDivNat res.1 NUM_DICE_SAMPLES, res.2.2)

/-- `get_minimax_score_sampled`: terminal checks, then the depth-0
heuristic leaf or the sampled chance node. -/
def get_minimax_score_sampled (rand : ℕ → ℕ × ℕ) :
    ℕ → GameState → Player → Player → Score → Score → ℕ → Score × ℕ
  | 0, game_state, _, maximizing_player, _, _, ctr =>
    let go := is_game_over game_state
    if go.1 then
      (if go.2.winner = Winner.win maximizing_player then (Score.pinf, ctr)
       else if go.2.winner ≠ Winner.none then (Score.ninf, ctr)
       else (Score.fin (Frac.ofInt 0), ctr))
    else
      (Score.fin (evaluate_position_heuristic game_state maximizing_player
        (PHASE_WEIGHTS (determine_game_phase game_state))), ctr)
  | d + 1, game_state, current_turn_player, maximizing_player, alpha, beta,
      ctr =>
    let go := is_game_over game_state
    if go.1 then
      (if go.2.winner = Winner.win maximizing_player then (Score.pinf, ctr)
       else if go.2.winner ≠ Winner.none then (Score.ninf, ctr)
       else (Score.fin (Frac.ofInt 0), ctr))
    else
      minimax_chance_node (get_minimax_score_sampled rand d) rand game_state
        current_turn_player maximizing_player alpha beta ctr

/-- The body of `select_ai_move_minimax`'s loop over the enumerated
outcomes: score the outcome's state with the sampled minimax (opponent to
move, depth `MAX_DEPTH - 1`, fresh infinite bounds) and keep it when it
strictly beats the best score so far. -/
def select_step (rand : ℕ → ℕ × ℕ) (opponent_player ai_player : Player)
    (acc : Score × Option (GameState × List Move) × ℕ)
    (p : GameState × List Move) : Score × Option (GameState × List Move) × ℕ :=
  let r := get_minimax_score_sampled rand (MAX_DEPTH - 1) p.1
    opponent_player ai_player Score.ninf Score.pinf acc.2.2
  if pyLt acc.1 r.1 then (r.1, some (p.1, p.2), r.2)
  else (acc.1, acc.2.1, r.2)

/-- The list of minimax scores assigned by `select_ai_move_minimax` to the
enumerated outcomes, in enumeration order, with the random counter
threaded through exactly as in the selection loop. -/
def select_scores (rand : ℕ → ℕ × ℕ) (opponent_player ai_player : Player) :
    List (GameState × List Move) → ℕ → List Score × ℕ
  | [], c => ([], c)
  | p :: rest, c =>
    let r := get_minimax_score_sampled rand (MAX_DEPTH - 1) p.1
      opponent_player ai_player Score.ninf Score.pinf c
    let rs := select_scores rand opponent_player ai_player rest r.2
    (r.1 :: rs.1, rs.2)

/-- `select_ai_move_minimax`, with the same explicit random stream and
counter threading as `get_minimax_score_sampled`. -/
def select_ai_move_minimax (rand : ℕ → ℕ × ℕ)
    (current_game_state : GameState) (dice_tuple : List ℕ)
    (ai_player : Player) (ctr : ℕ) : (List Move × GameState) × ℕ :=
  let possible_outcomes := generate_possible_next_states_with_sequences
    current_game_state dice_tuple ai_player
  let no_move := match possible_outcomes with
    | [] => true
    | [(_, seq)] => seq.isEmpty
    | _ => false
  if no_move then (([], current_game_state), ctr)
  else
    let opponent_player := ai_player.opponent
    let res := possible_outcomes.foldl
      (select_step rand opponent_player ai_player)
      (Score.ninf, Option.none, ctr)
    match res.2.1 with
    | Option.none =>
      match possible_outcomes with
      | [] =>
        (([], { current_game_state with
                dice := [], available_moves := [] }), res.2.2)
      | p0 :: _ =>
        ((p0.2, { p0.1 with
                  dice := [], available_moves := [] }), res.2.2)
    | Option.some oc =>
      ((oc.2, { oc.1 with
                dice := [], available_moves := [] }), res.2.2)

/-- A minimizing-node position for exercising the chance-node bound
threading: black to move with checkers on points 10 and 12, a white blot
on point 5. -/
def c4_example_state : GameState :=
  { initial_state with
    current_player := .b
    board := [0, 0, 0, 0, 1, 0, 0, 0, 0, -1, 0, -1,
              0, 0, 0, 0, 0, 0, 0, 0, 0, 0, 0, 0] }


/-- Modelled from the spec: a variant of the chance node in which each
sampled roll's branch search starts from the `alpha`/`beta` bounds the
function was called with, so a bound tightened while searching one
sample's branches has no effect on any other sample's branches (bounds
still tighten within a single sample's branch fold). -/
def minimax_chance_node_local_bounds
    (recur : GameState → Player → Player → Score → Score → ℕ → Score × ℕ)
    (rand : ℕ → ℕ × ℕ) (game_state : GameState)
    (current_turn_player maximizing_player : Player)
    (alpha beta : Score) (ctr : ℕ) : Score × ℕ :=
  let samples := (List.range NUM_DICE_SAMPLES).map (fun i => rand (ctr + i))
  let ctr1 := ctr + NUM_DICE_SAMPLES
  if current_turn_player = maximizing_player then
    let res := samples.foldl (fun (acc : Score × ℕ) dd =>
      let r := max_sample_step recur game_state current_turn_player
        maximizing_player beta (acc.1, alpha, acc.2) dd
      (r.1, r.2.2)) (Score.fin (Frac.ofInt 0), ctr1)
    (pyDivNat res.1 NUM_DICE_SAMPLES, res.2)
  else
    let res := samples.foldl (fun (acc : Score × ℕ) dd =>
      let r := min_sample_step recur game_state current_turn_player
        maximizing_player alpha (acc.1, beta, acc.2) dd
      (r.1, r.2.2)) (Score.fin (Frac.ofInt 0), ctr1)
    (pyDivNat res.1 NUM_DICE_SAMPLES, res.2)


/-- Modelled from the spec: `get_minimax_score_sampled` with the
per-sample-local bounds of `minimax_chance_node_local_bounds`. -/
def get_minimax_score_sampled_local_bounds (rand : ℕ → ℕ × ℕ) :
    ℕ → GameState → Player → Player → Score → Score → ℕ → Score × ℕ
  | 0, game_state, _, maximizing_player, _, _, ctr =>
    let go := is_game_over game_state
    if go.1 then
      (if go.2.winner = Winner.win maximizing_player then (Score.pinf, ctr)
       else if go.2.winner ≠ Winner.none then (Score.ninf, ctr)
       else (Score.fin (Frac.ofInt 0), ctr))
    else
      (Score.fin (evaluate_position_heuristic game_state maximizing_player
        (PHASE_WEIGHTS (determine_game_phase game_state))), ctr)
  | d + 1, game_state, current_turn_player, maximizing_player, alpha, beta,
      ctr =>
    let go := is_game_over game_state
    if go.1 then
      (if go.2.winner = Winner.win maximizing_player then (Score.pinf, ctr)
       else if go.2.winner ≠ Winner.none then (Score.ninf, ctr)
       else (Score.fin (Frac.ofInt 0), ctr))
    else
      minimax_chance_node_local_bounds
        (get_minimax_score_sampled_local_bounds rand d) rand game_state
        current_turn_player maximizing_player alpha beta ctr


/-- Explicit recursion over the sampled rolls of a maximizing chance
node: the `alpha` entering each sample is the `alpha` produced by the
previous sample, making the carrying of the bound across samples
explicit. -/
def minimax_max_node_samples
    (recur : GameState → Player → Player → Score → Score → ℕ → Score × ℕ)
    (game_state : GameState) (current_turn_player maximizing_player : Player)
    (beta : Score) :
    List (ℕ × ℕ) → Score → Score → ℕ → Score × Score × ℕ
  | [], accumulated, alphaCur, c => (accumulated, alphaCur, c)
  | dd :: rest, accumulated, alphaCur, c =>
    let next := max_sample_step recur game_state current_turn_player
      maximizing_player beta (accumulated, alphaCur, c) dd
    minimax_max_node_samples recur game_state current_turn_player
      maximizing_player beta rest next.1 next.2.1 next.2.2


/-- Explicit recursion over the sampled rolls of a minimizing chance
node: the `beta` entering each sample is the `beta` produced by the
previous sample. -/
def minimax_min_node_samples
    (recur : GameState → Player → Player → Score → Score → ℕ → Score × ℕ)
    (game_state : GameState) (current_turn_player maximizing_player : Player)
    (alpha : Score) :
    List (ℕ × ℕ) → Score → Score → ℕ → Score × Score × ℕ
  | [], accumulated, betaCur, c => (accumulated, betaCur, c)
  | dd :: rest, accumulated, betaCur, c =>
    let next := min_sample_step recur game_state current_turn_player
      maximizing_player alpha (accumulated, betaCur, c) dd
    minimax_min_node_samples recur game_state current_turn_player
      maximizing_player alpha rest next.1 next.2.1 next.2.2


set_option maxRecDepth 100000 in
set_option maxHeartbeats 4000000 in
/-- Counterexample to C4 as stated: at a depth-1 minimizing chance node
with a constant (1,2) sample stream and `alpha` equal to the minimum
branch evaluation, the code (which carries `beta` across samples) returns
a different score from the variant that searches every sample from the
bounds the function was called with. -/
theorem c4_local_bounds_counterexample :
    (get_minimax_score_sampled (fun _ => (1, 2)) 1 c4_example_state
        Player.b Player.w (Score.fin (mkFrac (-21) 5)) Score.pinf 0).1 ≠
      (get_minimax_score_sampled_local_bounds (fun _ => (1, 2)) 1
        c4_example_state Player.b Player.w (Score.fin (mkFrac (-21) 5))
        Score.pinf 0).1 := by decide


/-- C4 (amended): at a chance node the pruning bounds ARE carried
across the sampled dice rolls: the node equals an explicit recursion
over the samples in which each sample's branch search starts from the
bound tightened by all previous samples (`alpha` at a maximizing node,
`beta` at a minimizing node; the other bound stays as passed in). -/
theorem c4_alpha_beta_carried (rand : ℕ → ℕ × ℕ) (d : ℕ) (gs : GameState)
    (cur mp : Player) (alpha beta : Score) (ctr : ℕ)
    (hgo : (is_game_over gs).1 = false) :
    get_minimax_score_sampled rand (d + 1) gs cur mp alpha beta ctr =
      (if cur = mp then
        (let r := minimax_max_node_samples (get_minimax_score_sampled rand d)
            gs cur mp beta
            ((List.range NUM_DICE_SAMPLES).map (fun i => rand (ctr + i)))
            (Score.fin (Frac.ofInt 0)) alpha (ctr + NUM_DICE_SAMPLES)
         (pyDivNat r.1 NUM_DICE_SAMPLES, r.2.2))
       else
        (let r := minimax_min_node_samples (get_minimax_score_sampled rand d)
            gs cur mp alpha
            ((List.range NUM_DICE_SAMPLES).map (fun i => rand (ctr + i)))
            (Score.fin (Frac.ofInt 0)) beta (ctr + NUM_DICE_SAMPLES)
         (pyDivNat r.1 NUM_DICE_SAMPLES, r.2.2))) := by
  have hfold_max : ∀ (l : List (ℕ × ℕ)) (a α : Score) (c : ℕ),
      l.foldl (max_sample_step (get_minimax_score_sampled rand d) gs cur mp
        beta) (a, α, c) =
        minimax_max_node_samples (get_minimax_score_sampled rand d) gs cur mp
          beta l a α c := by
    intro l
    induction l with
    | nil => intro a α c; rfl
    | cons dd rest ih =>
      intro a α c
      rw [List.foldl_cons]
      have he : max_sample_step (get_minimax_score_sampled rand d) gs cur mp
          beta (a, α, c) dd =
          ((max_sample_step (get_minimax_score_sampled rand d) gs cur mp
            beta (a, α, c) dd).1,
           (max_sample_step (get_minimax_score_sampled rand d) gs cur mp
            beta (a, α, c) dd).2.1,
           (max_sample_step (get_minimax_score_sampled rand d) gs cur mp
            beta (a, α, c) dd).2.2) := rfl
      rw [he, ih]
      rfl
  have hfold_min : ∀ (l : List (ℕ × ℕ)) (a β : Score) (c : ℕ),
      l.foldl (min_sample_step (get_minimax_score_sampled rand d) gs cur mp
        alpha) (a, β, c) =
        minimax_min_node_samples (get_minimax_score_sampled rand d) gs cur mp
          alpha l a β c := by
    intro l
    induction l with
    | nil => intro a β c; rfl
    | cons dd rest ih =>
      intro a β c
      rw [List.foldl_cons]
      have he : min_sample_step (get_minimax_score_sampled rand d) gs cur mp
          alpha (a, β, c) dd =
          ((min_sample_step (get_minimax_score_sampled rand d) gs cur mp
            alpha (a, β, c) dd).1,
           (min_sample_step (get_minimax_score_sampled rand d) gs cur mp
            alpha (a, β, c) dd).2.1,
           (min_sample_step (get_minimax_score_sampled rand d) gs cur mp
            alpha (a, β, c) dd).2.2) := rfl
      rw [he, ih]
      rfl
  rw [show get_minimax_score_sampled rand (d + 1) gs cur mp alpha beta ctr =
      (if (is_game_over gs).1 then
        (if (is_game_over gs).2.winner = Winner.win mp then (Score.pinf, ctr)
         else if (is_game_over gs).2.winner ≠ Winner.none then
           (Score.ninf, ctr)
         else (Score.fin (Frac.ofInt 0), ctr))
       else minimax_chance_node (get_minimax_score_sampled rand d) rand gs
         cur mp alpha beta ctr) from rfl]
  rw [hgo]
  rw [if_neg (by simp)]
  unfold minimax_chance_node
  by_cases hc : cur = mp
  · rw [if_pos hc, if_pos hc, hfold_max]
  · rw [if_neg hc, if_neg hc, hfold_min]

set_option maxRecDepth 100000 in
set_option maxHeartbeats 1000000 in
/-- Witness for C4's amended theorem at a concrete input: the depth-1
minimizing node over `c4_example_state`. -/
theorem c4_alpha_beta_carried_witness :
    get_minimax_score_sampled (fun _ => (1, 2)) (0 + 1) c4_example_state
        Player.b Player.w (Score.fin (mkFrac (-21) 5)) Score.pinf 0 =
      (if Player.b = Player.w then
        (let r := minimax_max_node_samples
            (get_minimax_score_sampled (fun _ => (1, 2)) 0)
            c4_example_state Player.b Player.w Score.pinf
            (List.map (fun _ => ((1 : ℕ), (2 : ℕ)))
              (List.range NUM_DICE_SAMPLES))
            (Score.fin (Frac.ofInt 0)) (Score.fin (mkFrac (-21) 5))
            (0 + NUM_DICE_SAMPLES)
         (pyDivNat r.1 NUM_DICE_SAMPLES, r.2.2))
       else
        (let r := minimax_min_node_samples
            (get_minimax_score_sampled (fun _ => (1, 2)) 0)
            c4_example_state Player.b Player.w (Score.fin (mkFrac (-21) 5))
            (List.map (fun _ => ((1 : ℕ), (2 : ℕ)))
              (List.range NUM_DICE_SAMPLES))
            (Score.fin (Frac.ofInt 0)) Score.pinf (0 + NUM_DICE_SAMPLES)
         (pyDivNat r.1 NUM_DICE_SAMPLES, r.2.2))) := by
  rw [c4_alpha_beta_carried (fun _ => (1, 2)) 0 c4_example_state Player.b
    Player.w (Score.fin (mkFrac (-21) 5)) Score.pinf 0 rfl]


/-- A finished game: white has borne off 15 checkers. -/
def c8_example_state : GameState := { initial_state with white_off := 15 }

/-- C8: when either side has borne off 15 checkers the sampled minimax
returns `+inf` if the winning side (white if its off count reached 15,
otherwise black) is `maximizing_player` and `-inf` otherwise, at every
depth and for all bounds, counters and random streams — never a finite
draw value. -/
theorem c8_terminal_score (rand : ℕ → ℕ × ℕ) (depth : ℕ) (st : GameState)
    (cur mp : Player) (alpha beta : Score) (ctr : ℕ)
    (h : 15 ≤ st.white_off ∨ 15 ≤ st.black_off) :
    (get_minimax_score_sampled rand depth st cur mp alpha beta ctr).1 =
      (if (if 15 ≤ st.white_off then Player.w else Player.b) = mp
       then Score.pinf else Score.ninf) := by
  set wp := (if 15 ≤ st.white_off then Player.w else Player.b) with hwp
  have h1 : (is_game_over st).1 = true := by
    unfold is_game_over
    by_cases hw : 15 ≤ st.white_off
    · rw [if_pos hw]
    · rcases h with h | hb
      · exact absurd h hw
      · rw [if_neg hw, if_pos hb]
  have h2 : (is_game_over st).2.winner = Winner.win wp := by
    unfold is_game_over
    by_cases hw : 15 ≤ st.white_off
    · rw [if_pos hw, hwp, if_pos hw]
    · rcases h with h | hb
      · exact absurd h hw
      · rw [if_neg hw, if_pos hb, hwp, if_neg hw]
  have main : ∀ (go : Bool × GameState) (e : Score × ℕ),
      go.1 = true → go.2.winner = Winner.win wp →
      ((if go.1 then
          (if go.2.winner = Winner.win mp then (Score.pinf, ctr)
           else if go.2.winner ≠ Winner.none then (Score.ninf, ctr)
           else (Score.fin (Frac.ofInt 0), ctr))
        else e) : Score × ℕ).1 =
        (if wp = mp then Score.pinf else Score.ninf) := by
    intro go e hg1 hg2
    rw [hg1, if_pos rfl, hg2]
    by_cases hmp : wp = mp
    · rw [if_pos hmp, if_pos (by rw [hmp])]
    · rw [if_neg hmp, if_neg (fun hco => hmp (Winner.win.inj hco)),
        if_pos (by simp)]
  rcases depth with _ | d
  · exact main (is_game_over st) (Score.fin (evaluate_position_heuristic st
      mp (PHASE_WEIGHTS (determine_game_phase st))), ctr) h1 h2
  · exact main (is_game_over st) (minimax_chance_node
      (get_minimax_score_sampled rand d) rand st cur mp alpha beta ctr) h1 h2

/-- Witness for C8 at a concrete input: a state with 15 white checkers
borne off, evaluated at depth 2 for black to move with white
maximizing. -/
theorem c8_terminal_score_witness :
    (15 ≤ c8_example_state.white_off ∨ 15 ≤ c8_example_state.black_off) ∧
    (get_minimax_score_sampled (fun _ => (1, 1)) 2 c8_example_state Player.b
        Player.w Score.ninf Score.pinf 5).1 =
      (if (if 15 ≤ c8_example_state.white_off then Player.w else Player.b) =
          Player.w then Score.pinf else Score.ninf) :=
  ⟨Or.inl (by decide),
   c8_terminal_score (fun _ => (1, 1)) 2 c8_example_state Player.b Player.w
     Score.ninf Score.pinf 5 (Or.inl (by decide))⟩
